import Mathlib

/-!
# Verification of the API-recommendation service core

A shallow embedding of the core algorithms of the recommendation service:
the vector-math kernel (`array_avg`), the embedding builder
(`get_user_embedding` and friends from `Recommender/utils/embedding.py`),
the recommendation engines (`JA_engine`, `MC_engine`, `EM_engine`) and the
document-to-graph sync projector (`Synchronizer`).

Numeric values are modelled by exact rationals (`ℚ`); vectors by `List ℚ`;
Python exceptions by `Except String`; the document and graph stores by
explicit state records.  Divergence (unbounded recursion) is modelled with
fuel: a result of `none` for every fuel value means the Python computation
never returns normally.
-/

set_option maxHeartbeats 1000000

/-! ## Vector math kernel (`Recommender/utils/__init__.py`) -/

/-- A dense vector (a numpy 1-d array of reals). -/
abbrev Vec := List ℚ

/-- Elementwise addition of two vectors (numpy `+` on same-shape arrays). -/
def vecAdd (u v : Vec) : Vec := List.zipWith (· + ·) u v

/-- Scalar multiplication `arr * w` (numpy broadcasting of a scalar). -/
def vecScale (c : ℚ) (v : Vec) : Vec := v.map (fun x => c * x)

/-- `np.sum(matrices, axis=0)` for a non-empty list: elementwise sum.
The empty case is unreachable in `array_avg` (guarded by the emptiness check). -/
def vecSum : List Vec → Vec
  | [] => []
  | m :: ms => ms.foldl vecAdd m

/-- `Utils.array_avg` (`Recommender/utils/__init__.py`, lines 45-70):
raises on an empty list, raises when the shapes disagree, and otherwise
returns the elementwise sum divided by the **number** of matrices. -/
def array_avg (matrices : List Vec) : Except String Vec :=
  match matrices with
  | [] => Except.error "La liste de matrices ne doit pas etre vide."
  | m :: ms =>
    if (m :: ms).all (fun x => x.length == m.length) then
      Except.ok ((vecSum (m :: ms)).map (fun x => x / ((m :: ms).length : ℚ)))
    else
      Except.error "Toutes les matrices doivent avoir la meme forme."

/-- C6 -- `array_avg` over a non-empty same-dimension family returns the
elementwise sum of its inputs divided by the number N of inputs (not by any
weight sum); on a single input it is the identity; the empty list and
mismatched dimensions are errors. -/
theorem array_avg_spec :
    (∀ (vs : List Vec) (d : ℕ), vs ≠ [] → (∀ v ∈ vs, v.length = d) →
      array_avg vs = Except.ok ((vecSum vs).map (fun x => x / (vs.length : ℚ))))
    ∧ (∀ v : Vec, array_avg [v] = Except.ok v)
    ∧ array_avg [] = Except.error "La liste de matrices ne doit pas etre vide."
    ∧ (∀ v w : Vec, v.length ≠ w.length →
      array_avg [v, w] = Except.error "Toutes les matrices doivent avoir la meme forme.") := by
  refine ⟨?_, ?_, rfl, ?_⟩
  · intro vs d hne hall
    match vs, hne with
    | m :: ms, _ =>
      have hguard : (m :: ms).all (fun x => x.length == m.length) = true := by
        simp only [List.all_eq_true]
        intro x hx
        have hx' : x.length = d := hall x hx
        have hm : m.length = d := hall m (by simp)
        simp [hx', hm]
      simp [array_avg, hguard]
  · intro v
    have : vecSum [v] = v := rfl
    simp [array_avg, this]
  · intro v w hvw
    have hguard : ([v, w].all (fun x => x.length == w.length → False)) = [v,w].all (fun x => x.length == w.length → False) := rfl
    simp only [array_avg]
    have : ([v, w].all (fun x => x.length == v.length)) = false := by
      simp only [List.all_cons, List.all_nil, Bool.and_true, Bool.and_eq_false_iff]
      right
      simpa using fun h => hvw h.symm
    simp [this]

/-- Witness for C6: the first conjunct applied to the family `[[1,2],[3,4]]`
of dimension 2. -/
theorem array_avg_spec_witness :
    array_avg [[(1 : ℚ), 2], [3, 4]]
      = Except.ok ((vecSum [[(1 : ℚ), 2], [3, 4]]).map (fun x => x / ((2 : ℕ) : ℚ))) :=
  array_avg_spec.1 [[(1 : ℚ), 2], [3, 4]] 2 (by decide) (by decide)

/-! ## The embedding builder (`Recommender/utils/embedding.py`, class `MC_embedder`)

The builder reads documents from the Mongo store, composes weighted
embeddings, and writes cached vectors back.  Time is abstracted to `ℤ`
timestamps; `model.encode` is an arbitrary deterministic function
`enc : String → Vec`; the TTL (`self.update_time`) is an integer parameter.

A crucial point of fidelity: `MC_embedder._get_embedding` (lines 949-961)
returns `np.array(entity.get("embedding"))` for a found document — a 0-d
numpy object array wrapping the `embedding` sub-document (or wrapping
`None` when the field is absent) — not the document itself.  Its callers
treat this value as if it were the document, which gives the following
Python semantics, modelled below:

* `if not entity:` — the truth value of a 0-d object array is the truth
  value of its element, so a document **without** an `embedding` field
  (`np.array(None)`) is falsy and is reported as nonexistent;
* `"embedding" in entity` — `ndarray.__contains__` is elementwise equality
  followed by `any()`; comparing the wrapped sub-document with the string
  `"embedding"` is `False`, so the cached-return branch is dead code
  (and had the test succeeded, `entity['embedding']` would itself raise,
  so no cached vector can ever be returned through this path);
* `entity['name']` (in `get_interest_embedding`, line 822, evaluated inside
  a `logger.debug` argument list) — string indexing of a 0-d numpy array
  raises `IndexError`, so interest embedding retrieval never succeeds for
  an interest that has an `embedding` field.
-/

/-- Absolute value on `ℚ`, written so that it evaluates by kernel reduction
(it agrees with `|·|`, see `ratAbs_eq_abs`). -/
def ratAbs (q : ℚ) : ℚ := if q < 0 then -q else q

theorem ratAbs_eq_abs (q : ℚ) : ratAbs q = |q| := by
  unfold ratAbs
  by_cases h : q < 0
  · rw [if_pos h, abs_of_neg h]
  · rw [if_neg h, abs_of_nonneg (le_of_not_lt h)]

/-- `np.isclose(a, b, rtol=1e-09, atol=1e-09)`: `|a - b| ≤ atol + rtol·|b|`. -/
def np_isclose (a b : ℚ) : Bool :=
  decide (ratAbs (a - b) ≤ 1 / 1000000000 + (1 / 1000000000) * ratAbs b)

/-- The persisted embedding sub-document `{date, vector}`. -/
structure CachedEmbedding where
  date : ℤ
  vector : Vec
  deriving DecidableEq, Repr

/-- The embedder's view of a `users` document. -/
structure UserDoc where
  id : String
  description : String
  interests : List String
  follow : List String
  embedding : Option CachedEmbedding
  deriving DecidableEq, Repr

/-- The embedder's view of an `interest` document. -/
structure InterestDoc where
  id : String
  name : String
  embedding : Option CachedEmbedding
  deriving DecidableEq, Repr

/-- The document-store collections read by the user-embedding path. -/
structure EmbStore where
  users : List UserDoc
  interest : List InterestDoc
  deriving DecidableEq, Repr

/-- Document store plus an observation log of the reads issued
(`(collection, document id)` per `find_one`). -/
structure EmbState where
  store : EmbStore
  reads : List (String × String)
  deriving DecidableEq, Repr

def findUser (s : EmbStore) (i : String) : Option UserDoc :=
  s.users.find? (fun u => u.id == i)

def findInterest (s : EmbStore) (i : String) : Option InterestDoc :=
  s.interest.find? (fun d => d.id == i)

/-- `users.update_one({'_id': id}, {'$set': {'embedding': ...}})`. -/
def writeUserEmbedding (s : EmbState) (i : String) (c : CachedEmbedding) : EmbState :=
  { s with store := { s.store with
      users := s.store.users.map (fun u => if u.id = i then { u with embedding := some c } else u) } }

/-- The value returned by `MC_embedder._get_embedding`:
`None` when `find_one` found no document, otherwise the 0-d numpy array
`np.array(doc.get("embedding"))` wrapping the optional sub-document. -/
inductive PyEntity where
  | noDoc : PyEntity
  | arr : Option CachedEmbedding → PyEntity
  deriving DecidableEq, Repr

/-- Python truthiness of the `_get_embedding` result: `None` is falsy, and
the truth value of a 0-d object array is the truth value of its element, so
`np.array(None)` is falsy and `np.array(subdoc)` (a non-empty dict) is truthy. -/
def PyEntity.truthy : PyEntity → Bool
  | PyEntity.noDoc => false
  | PyEntity.arr none => false
  | PyEntity.arr (some _) => true

/-- `"embedding" in entity` where `entity` is the 0-d ndarray wrapper:
`ndarray.__contains__` is `(entity == "embedding").any()`, comparing the
wrapped sub-document (or `None`) with a string — always `False`. -/
def PyEntity.containsEmbedding : PyEntity → Bool := fun _ => false

/-- `MC_embedder._get_embedding(entity_type, entity_id)` (lines 949-961),
including the read it issues. -/
def MC__get_embedding (s : EmbState) (entity_type entity_id : String) :
    PyEntity × EmbState :=
  let s' : EmbState := { s with reads := s.reads ++ [(entity_type, entity_id)] }
  match entity_type with
  | "users" =>
    (match findUser s.store entity_id with
     | none => PyEntity.noDoc
     | some u => PyEntity.arr u.embedding, s')
  | "interest" =>
    (match findInterest s.store entity_id with
     | none => PyEntity.noDoc
     | some d => PyEntity.arr d.embedding, s')
  | _ => (PyEntity.noDoc, s')

/-- The full `find_one({"_id": id_user})` on `users` (line 375). -/
def mongo_find_users (s : EmbState) (i : String) : Option UserDoc × EmbState :=
  (findUser s.store i, { s with reads := s.reads ++ [("users", i)] })

def userNotFoundMsg : String :=
  "User does not exist: impossible to generate an embedding"
def invalidWeightsMsg : String :=
  "The sum of arguments follow_weight, interest_weight and description_weight must be 1.0"
def interestNotFoundMsg : String :=
  "Interest does not exist: impossible to generate an embedding"
def ndarrayIndexMsg : String :=
  "IndexError: strings are not valid indices for a 0-d numpy array"
def noneTypeMsg : String :=
  "TypeError: NoneType object is not subscriptable"

/-- `MC_embedder.get_interest_embedding` (lines 795-872).  After the
existence check (which, per the `_get_embedding` semantics above, also
rejects interests without an `embedding` field), line 822 evaluates
`len(entity['name'])` inside a `logger.debug` argument list; `entity` is a
0-d ndarray, so this raises before any encoding or store write.  The rest
of the function is unreachable. -/
def get_interest_embedding (s : EmbState) (id_interest : String) :
    Except String Vec × EmbState :=
  match MC__get_embedding s "interest" id_interest with
  | (PyEntity.noDoc, s1) => (Except.error interestNotFoundMsg, s1)
  | (PyEntity.arr none, s1) => (Except.error interestNotFoundMsg, s1)
  | (PyEntity.arr (some _), s1) => (Except.error ndarrayIndexMsg, s1)

/-- Sequential evaluation of `(self.get_interest_embedding(i) for i in
user['interests'])` by `list(...)` inside `array_avg`: the reads happen in
order until the first exception, which propagates. -/
def gatherInterestVecs (s : EmbState) : List String → Except String (List Vec) × EmbState
  | [] => (Except.ok [], s)
  | i :: rest =>
    match get_interest_embedding s i with
    | (Except.error e, s1) => (Except.error e, s1)
    | (Except.ok v, s1) =>
      match gatherInterestVecs s1 rest with
      | (Except.error e, s2) => (Except.error e, s2)
      | (Except.ok vs, s2) => (Except.ok (v :: vs), s2)

/-- `MC_embedder._generate_base_user_embedding` (lines 421-466): the
cycle-breaking base embedding
`array_avg(array_avg(interest embeddings) * w_int, encode(description) * w_desc)`. -/
def _generate_base_user_embedding (enc : String → Vec) (s : EmbState) (user : UserDoc)
    (normalized_interest_weight normalized_description_weight : ℚ) :
    Except String Vec × EmbState :=
  match gatherInterestVecs s user.interests with
  | (Except.error e, s1) => (Except.error e, s1)
  | (Except.ok ivecs, s1) =>
    match array_avg ivecs with
    | Except.error e => (Except.error e, s1)
    | Except.ok imean =>
      match array_avg [vecScale normalized_interest_weight imean,
                       vecScale normalized_description_weight (enc user.description)] with
      | Except.error e => (Except.error e, s1)
      | Except.ok v => (Except.ok v, s1)

/-- Sequential evaluation of `(self.get_user_embedding(f, ...) for f in
user['follow'])` by `list(...)` inside `array_avg`, with the recursive call
abstracted as `next` (each call is one deeper stack frame). -/
def gatherFollowVecsWith (next : EmbState → String → Option (Except String Vec × EmbState)) :
    EmbState → List String → Option (Except String (List Vec) × EmbState)
  | s, [] => some (Except.ok [], s)
  | s, f :: rest =>
    match next s f with
    | none => none
    | some (Except.error e, s1) => some (Except.error e, s1)
    | some (Except.ok v, s1) =>
      match gatherFollowVecsWith next s1 rest with
      | none => none
      | some (Except.error e, s2) => some (Except.error e, s2)
      | some (Except.ok vs, s2) => some (Except.ok (v :: vs), s2)

/-- `MC_embedder._generate_full_user_embedding` (lines 468-525):
`array_avg(array_avg(interests)·w_int, encode(desc)·w_desc, array_avg(follows)·w_fol)`,
with Python evaluating the three arguments left to right (so an exception in
the interest term prevents any follow recursion).  The recursive
`get_user_embedding` call on each followed id is abstracted as `next`. -/
def _generate_full_user_embedding (enc : String → Vec)
    (next : EmbState → String → Option (Except String Vec × EmbState))
    (s : EmbState) (user : UserDoc)
    (follow_weight interest_weight description_weight : ℚ) :
    Option (Except String Vec × EmbState) :=
  match gatherInterestVecs s user.interests with
  | (Except.error e, s1) => some (Except.error e, s1)
  | (Except.ok ivecs, s1) =>
    match array_avg ivecs with
    | Except.error e => some (Except.error e, s1)
    | Except.ok imean =>
      match gatherFollowVecsWith next s1 user.follow with
      | none => none
      | some (Except.error e, s2) => some (Except.error e, s2)
      | some (Except.ok fvecs, s2) =>
        match array_avg fvecs with
        | Except.error e => some (Except.error e, s2)
        | Except.ok fmean =>
          match array_avg [vecScale interest_weight imean,
                           vecScale description_weight (enc user.description),
                           vecScale follow_weight fmean] with
          | Except.error e => some (Except.error e, s2)
          | Except.ok v => some (Except.ok v, s2)

/-- `MC_embedder.get_user_embedding` (lines 315-419), with fuel bounding the
recursion depth through the follow graph (`none` = out of fuel, i.e. the
computation would still be running at this depth).  `processing` is the
thread-local `_processing_users` reentrance set; the recursive call for a
followed user runs with `id_user` added to it. -/
def get_user_embedding (enc : String → Vec) (ttl now : ℤ) :
    ℕ → EmbState → List String → String → ℚ → ℚ → ℚ →
    Option (Except String Vec × EmbState)
  | 0, _, _, _, _, _, _ => none
  | fuel + 1, s, processing, id_user, follow_weight, interest_weight, description_weight =>
    match MC__get_embedding s "users" id_user with
    | (PyEntity.noDoc, s1) =>
      some (Except.error userNotFoundMsg, s1)
    | (PyEntity.arr none, s1) =>
      -- `np.array(None)` is falsy: an existing user without an `embedding`
      -- field is reported as nonexistent.
      some (Except.error userNotFoundMsg, s1)
    | (PyEntity.arr (some c), s1) =>
      -- the cached-return branch: dead, since `containsEmbedding` is `false`
      if PyEntity.containsEmbedding (PyEntity.arr (some c)) && decide (now - c.date < ttl) then
        some (Except.ok c.vector, s1)
      else if ¬ np_isclose (follow_weight + interest_weight + description_weight) 1 then
        some (Except.error invalidWeightsMsg, s1)
      else
        match mongo_find_users s1 id_user with
        | (none, s2) => some (Except.error noneTypeMsg, s2)
        | (some user, s2) =>
          if id_user ∈ processing then
            some (_generate_base_user_embedding enc s2 user
              (interest_weight / (interest_weight + description_weight))
              (description_weight / (interest_weight + description_weight)))
          else
            match _generate_full_user_embedding enc
                (fun s' f => get_user_embedding enc ttl now fuel s' (id_user :: processing) f
                  follow_weight interest_weight description_weight)
                s2 user follow_weight interest_weight description_weight with
            | none => none
            | some (Except.error e, s3) => some (Except.error e, s3)
            | some (Except.ok v, s3) =>
              some (Except.ok v, writeUserEmbedding s3 id_user (CachedEmbedding.mk now v))

/-! ## `MC_embedder.get_user_embeddings` and the EM engine -/

/-- The nested-dictionary value that `get_user_embeddings` would return. -/
inductive PyDict where
  | mk : List (String × PyDict) → PyDict

/-- Sequential evaluation of the comprehension entries of
`get_user_embeddings`: for each user the value is computed by the recursive
call (abstracted as `next`) before the key is inserted. -/
def gueEntriesWith (next : String → Option PyDict) : List String → Option (List (String × PyDict))
  | [] => some []
  | u :: rest =>
    match next u with
    | none => none
    | some d => (gueEntriesWith next rest).map (fun l => (u, d) :: l)

/-- `MC_embedder.get_user_embeddings` (lines 874-887).  The dictionary
comprehension calls `self.get_user_embeddings(user, *args)` — the plural
method itself — once per user document, so each level appends one more
positional argument (`args`) and recurses over the same collection.
`users` is the id sequence produced by `find(projection={'_id': 1})`.
`none` = out of fuel (the computation is still running at this depth). -/
def get_user_embeddings (users : List String) : ℕ → List String → Option PyDict
  | 0, _ => none
  | fuel + 1, args =>
    (gueEntriesWith (fun u => get_user_embeddings users fuel (u :: args)) users).map PyDict.mk

/-- The composition `EM_engine._get_embedding` ∘ `MC_embedder.encode` for the
two dispatch strings the EM engine uses (`"users"` in `recommend_users`,
`"user"` in `recommend_posts`/`recommend_threads`; `encode`'s remaining arms
are not reachable from these entry points).  `EM_engine._get_embedding`
(`Recommender/core/em_engine.py`, lines 17-28) has **no return statement**:
whatever `encode` produces is discarded and Python returns `None`; an
exception from `encode` propagates. -/
def EM__get_embedding (enc : String → Vec) (ttl now : ℤ) (fuel : ℕ)
    (s : EmbState) (entity_type entity_id : String) :
    Option (Except String (Option Vec) × EmbState) :=
  match entity_type with
  | "users" =>
    match get_user_embeddings (s.store.users.map (fun u => u.id)) fuel [] with
    | none => none
    | some _ => some (Except.ok none, s)
  | "user" =>
    match get_user_embedding enc ttl now fuel s [] entity_id (2/5) (2/5) (1/5) with
    | none => none
    | some (Except.error e, s1) => some (Except.error e, s1)
    | some (Except.ok _, s1) => some (Except.ok none, s1)
  | _ => some (Except.ok none, s)

/-- `EM_engine.recommend_users` (lines 30-60): fetch the requester embedding
via `_get_embedding("users", id_user)`; `if user_embedding is None: return []`;
the candidate scan below that guard is unreachable because `_get_embedding`
always returns `None`. -/
def EM_recommend_users (enc : String → Vec) (ttl now : ℤ) (fuel : ℕ)
    (s : EmbState) (id_user : String) :
    Option (Except String (List String) × EmbState) :=
  match EM__get_embedding enc ttl now fuel s "users" id_user with
  | none => none
  | some (Except.error e, s1) => some (Except.error e, s1)
  | some (Except.ok none, s1) => some (Except.ok [], s1)
  | some (Except.ok (some _), s1) => some (Except.ok [], s1)

/-- `EM_engine.recommend_posts` (lines 62-92): identical head shape but the
requester embedding is fetched with entity type `"user"`. -/
def EM_recommend_posts (enc : String → Vec) (ttl now : ℤ) (fuel : ℕ)
    (s : EmbState) (id_user : String) :
    Option (Except String (List String) × EmbState) :=
  match EM__get_embedding enc ttl now fuel s "user" id_user with
  | none => none
  | some (Except.error e, s1) => some (Except.error e, s1)
  | some (Except.ok none, s1) => some (Except.ok [], s1)
  | some (Except.ok (some _), s1) => some (Except.ok [], s1)

/-- `EM_engine.recommend_threads` (lines 94-125): same head shape as
`recommend_posts`. -/
def EM_recommend_threads (enc : String → Vec) (ttl now : ℤ) (fuel : ℕ)
    (s : EmbState) (id_user : String) :
    Option (Except String (List String) × EmbState) :=
  match EM__get_embedding enc ttl now fuel s "user" id_user with
  | none => none
  | some (Except.error e, s1) => some (Except.error e, s1)
  | some (Except.ok none, s1) => some (Except.ok [], s1)
  | some (Except.ok (some _), s1) => some (Except.ok [], s1)

/-! ## Embedder facts and fixtures -/

/-- Every call to `get_interest_embedding` raises: a missing interest (or one
without an `embedding` field, falsy through the ndarray wrapper) is reported
as nonexistent; one with an `embedding` field hits the 0-d-array string
indexing on line 822. -/
theorem get_interest_embedding_cases (s : EmbState) (i : String) :
    ∃ e s', get_interest_embedding s i = (Except.error e, s')
      ∧ (e = interestNotFoundMsg ∨ e = ndarrayIndexMsg) := by
  unfold get_interest_embedding MC__get_embedding
  cases hfi : findInterest s.store i with
  | none =>
    exact ⟨interestNotFoundMsg, { s with reads := s.reads ++ [("interest", i)] },
      by simp [hfi], Or.inl rfl⟩
  | some d =>
    cases hd : d.embedding with
    | none =>
      exact ⟨interestNotFoundMsg, { s with reads := s.reads ++ [("interest", i)] },
        by simp [hfi, hd], Or.inl rfl⟩
    | some c =>
      exact ⟨ndarrayIndexMsg, { s with reads := s.reads ++ [("interest", i)] },
        by simp [hfi, hd], Or.inr rfl⟩

/-- Gathering interest embeddings over a non-empty interest list always
fails, with one of the two `get_interest_embedding` errors. -/
theorem gatherInterestVecs_error (s : EmbState) (i : String) (rest : List String) :
    ∃ e s', gatherInterestVecs s (i :: rest) = (Except.error e, s')
      ∧ (e = interestNotFoundMsg ∨ e = ndarrayIndexMsg) := by
  obtain ⟨e, s', heq, hor⟩ := get_interest_embedding_cases s i
  exact ⟨e, s', by simp [gatherInterestVecs, heq], hor⟩

def enc0 : String → Vec := fun _ => [1]

def i1doc : InterestDoc := { id := "i1", name := "sport", embedding := some ⟨-1000000, [7]⟩ }

def u1doc : UserDoc :=
  { id := "u1", description := "d1", interests := ["i1"], follow := ["u2"],
    embedding := some ⟨-1000000, [2]⟩ }

def u2doc : UserDoc :=
  { id := "u2", description := "d2", interests := ["i1"], follow := ["u1"],
    embedding := some ⟨-1000000, [3]⟩ }

/-- A two-user follow cycle (`u1 → u2 → u1`); both users and the interest
`i1` carry (stale) cached embeddings, so every document passes the
existence-truthiness gate. -/
def cycStore : EmbState := { store := { users := [u1doc, u2doc], interest := [i1doc] }, reads := [] }

/-- C1 -- the cycle scenario.  On the two-user cycle fixture with default
weights, `get_user_embedding "u1"` raises at the very first interest
embedding (the ndarray string-indexing error) before any recursive call:
the read log shows both `users` reads target `u1` and the single `interest`
read, and `u2` is never read, so the reentrance branch that would return the
base user embedding is never reached and no embedding is produced. -/
theorem get_user_embedding_cycle_fixture_raises :
    get_user_embedding enc0 100 0 5 cycStore [] "u1" (2/5) (2/5) (1/5)
      = some (Except.error ndarrayIndexMsg,
          { cycStore with reads := [("users", "u1"), ("users", "u1"), ("interest", "i1")] }) := by
  norm_num [get_user_embedding, _generate_full_user_embedding, gatherFollowVecsWith,
    gatherInterestVecs, get_interest_embedding, MC__get_embedding, mongo_find_users,
    findUser, findInterest, cycStore, u1doc, u2doc, i1doc, np_isclose, ratAbs,
    PyEntity.containsEmbedding, array_avg, _generate_base_user_embedding, enc0]

/-- C9 (amended) -- `get_user_embedding` issues a `users` store read first,
but the cached-vector fast path never fires (the `"embedding" in entity`
test on the ndarray wrapper is always false), so with an invalid weight
tuple the call raises the weight `ValueError` *after* that read — even when
the user holds a fresh cached embedding. -/
theorem get_user_embedding_weight_error_after_read
    (enc : String → Vec) (ttl now : ℤ) (fuel : ℕ) (s : EmbState)
    (processing : List String) (id : String) (fw iw dw : ℚ)
    (u : UserDoc) (c : CachedEmbedding)
    (hu : findUser s.store id = some u) (hc : u.embedding = some c)
    (hw : np_isclose (fw + iw + dw) 1 = false) :
    get_user_embedding enc ttl now (fuel + 1) s processing id fw iw dw
      = some (Except.error invalidWeightsMsg,
          { s with reads := s.reads ++ [("users", id)] }) := by
  simp [get_user_embedding, MC__get_embedding, hu, hc, hw, PyEntity.containsEmbedding]

/-- Fresh-cache fixture for C9: `u1` holds a cached embedding written at the
current instant (`now = 0`, TTL `100`). -/
def freshStore : EmbState :=
  { store := { users := [{ id := "u1", description := "d1", interests := ["i1"],
                           follow := [], embedding := some ⟨0, [5]⟩ }],
               interest := [i1doc] },
    reads := [] }

/-- Counterexample to C9: on a user with a *fresh* cached embedding and
weights (0.5, 0.5, 0.5) — an invalid tuple — the call does not return the
cached vector `[5]`; it raises the weight error. -/
theorem get_user_embedding_fresh_cache_invalid_weights_cex :
    (get_user_embedding enc0 100 0 5 freshStore [] "u1" (1/2) (1/2) (1/2)).map Prod.fst
        = some (Except.error invalidWeightsMsg)
    ∧ (get_user_embedding enc0 100 0 5 freshStore [] "u1" (1/2) (1/2) (1/2)).map Prod.fst
        ≠ some (Except.ok [5]) := by
  constructor
  · norm_num [get_user_embedding, MC__get_embedding, freshStore, findUser,
      np_isclose, ratAbs, PyEntity.containsEmbedding]
  · norm_num [get_user_embedding, MC__get_embedding, freshStore, findUser,
      np_isclose, ratAbs, PyEntity.containsEmbedding]
    exact fun h => nomatch h

/-- Witness for C9 (amended): the theorem applied to the fresh-cache fixture
with weights (0.5, 0.5, 0.5). -/
theorem get_user_embedding_weight_error_after_read_witness :
    get_user_embedding enc0 100 0 3 freshStore [] "u1" (1/2) (1/2) (1/2)
      = some (Except.error invalidWeightsMsg,
          { freshStore with reads := [("users", "u1")] }) := by
  have h := get_user_embedding_weight_error_after_read enc0 100 0 2 freshStore [] "u1"
    (1/2) (1/2) (1/2)
    { id := "u1", description := "d1", interests := ["i1"], follow := [],
      embedding := some ⟨0, [5]⟩ } ⟨0, [5]⟩
    (by norm_num [freshStore, findUser]) rfl
    (by norm_num [np_isclose, ratAbs])
  simpa [freshStore] using h

/-- C10 (amended) -- (a) a user with an **empty** interest set makes the
composition pass an empty sequence to `array_avg`, whose empty-list
`ValueError` propagates out of the public `get_user_embedding` (on both the
cyclic and the non-cyclic branch); (b) a user with a **non-empty** interest
set (in particular one with an empty follow set) also fails, but with an
interest-term error, never with the empty-aggregate error: the follow
aggregate is unreachable. -/
theorem get_user_embedding_empty_aggregate_error :
    (∀ (enc : String → Vec) (ttl now : ℤ) (fuel : ℕ) (s : EmbState)
       (processing : List String) (id : String) (fw iw dw : ℚ)
       (u : UserDoc) (c : CachedEmbedding),
       findUser s.store id = some u → u.embedding = some c →
       np_isclose (fw + iw + dw) 1 = true → u.interests = [] →
       (get_user_embedding enc ttl now (fuel + 1) s processing id fw iw dw).map Prod.fst
         = some (Except.error "La liste de matrices ne doit pas etre vide."))
    ∧ (∀ (enc : String → Vec) (ttl now : ℤ) (fuel : ℕ) (s : EmbState)
       (processing : List String) (id : String) (fw iw dw : ℚ)
       (u : UserDoc) (c : CachedEmbedding),
       findUser s.store id = some u → u.embedding = some c →
       np_isclose (fw + iw + dw) 1 = true → u.interests ≠ [] →
       ∃ e, (get_user_embedding enc ttl now (fuel + 1) s processing id fw iw dw).map Prod.fst
           = some (Except.error e)
         ∧ e ≠ "La liste de matrices ne doit pas etre vide.") := by
  constructor
  · intro enc ttl now fuel s processing id fw iw dw u c hu hc hw hi
    by_cases hp : id ∈ processing <;>
      simp [get_user_embedding, MC__get_embedding, hu, hc, hw, hp,
        PyEntity.containsEmbedding, mongo_find_users, _generate_base_user_embedding,
        _generate_full_user_embedding, hi, gatherInterestVecs, array_avg]
  · intro enc ttl now fuel s processing id fw iw dw u c hu hc hw hi
    obtain ⟨i, rest, hcons⟩ := List.exists_cons_of_ne_nil hi
    by_cases hp : id ∈ processing
    · obtain ⟨e, s', hg, hor⟩ :=
        gatherInterestVecs_error { s with reads := s.reads ++ [("users", id), ("users", id)] } i rest
      refine ⟨e, ?_, ?_⟩
      · simp [get_user_embedding, MC__get_embedding, hu, hc, hw, hp,
          PyEntity.containsEmbedding, mongo_find_users, _generate_base_user_embedding,
          hcons, hg]
      · rcases hor with h | h <;> subst h <;> decide
    · obtain ⟨e, s', hg, hor⟩ :=
        gatherInterestVecs_error { s with reads := s.reads ++ [("users", id), ("users", id)] } i rest
      refine ⟨e, ?_, ?_⟩
      · simp [get_user_embedding, MC__get_embedding, hu, hc, hw, hp,
          PyEntity.containsEmbedding, mongo_find_users, _generate_full_user_embedding,
          hcons, hg]
      · rcases hor with h | h <;> subst h <;> decide

/-- Empty-follow fixture for C10's counterexample: `uf` has no follows and a
single interest. -/
def emptyFollowStore : EmbState :=
  { store := { users := [{ id := "uf", description := "d", interests := ["i1"],
                           follow := [], embedding := some ⟨-1000000, [4]⟩ }],
               interest := [i1doc] },
    reads := [] }

/-- Counterexample to C10 as stated: for the empty-follow user `uf` (with a
non-empty interest set) the computation does fail, but with the interest-term
ndarray indexing error — the empty follow sequence is never handed to
`array_avg`, so the raised error is not the empty-list `ValueError`. -/
theorem get_user_embedding_empty_follow_cex :
    (get_user_embedding enc0 100 0 5 emptyFollowStore [] "uf" (2/5) (2/5) (1/5)).map Prod.fst
        = some (Except.error ndarrayIndexMsg)
    ∧ ndarrayIndexMsg ≠ "La liste de matrices ne doit pas etre vide." := by
  constructor
  · norm_num [get_user_embedding, _generate_full_user_embedding, gatherFollowVecsWith,
      gatherInterestVecs, get_interest_embedding, MC__get_embedding, mongo_find_users,
      findUser, findInterest, emptyFollowStore, i1doc, np_isclose, ratAbs,
      PyEntity.containsEmbedding, array_avg, enc0]
  · decide

/-- Empty-interest fixture for C10's witness. -/
def emptyInterestStore : EmbState :=
  { store := { users := [{ id := "ue", description := "d", interests := [],
                           follow := ["uf"], embedding := some ⟨-1000000, [4]⟩ }],
               interest := [] },
    reads := [] }

/-- Witness for C10 (amended): part (a) applied to the empty-interest user. -/
theorem get_user_embedding_empty_aggregate_error_witness :
    (get_user_embedding enc0 100 0 3 emptyInterestStore [] "ue" (2/5) (2/5) (1/5)).map Prod.fst
      = some (Except.error "La liste de matrices ne doit pas etre vide.") :=
  get_user_embedding_empty_aggregate_error.1 enc0 100 0 2 emptyInterestStore [] "ue"
    (2/5) (2/5) (1/5)
    { id := "ue", description := "d", interests := [], follow := ["uf"],
      embedding := some ⟨-1000000, [4]⟩ } ⟨-1000000, [4]⟩
    (by norm_num [emptyInterestStore, findUser]) rfl
    (by norm_num [np_isclose, ratAbs]) rfl

/-- Helper: over any non-empty users collection, `get_user_embeddings`
returns `none` at every fuel — the recursion never bottoms out. -/
theorem get_user_embeddings_none (users : List String) (h : users ≠ []) :
    ∀ (fuel : ℕ) (args : List String), get_user_embeddings users fuel args = none := by
  intro fuel
  induction fuel with
  | zero => intro args; rfl
  | succ n ih =>
    intro args
    obtain ⟨u, rest, hcons⟩ := List.exists_cons_of_ne_nil h
    rw [hcons]
    simp only [get_user_embeddings, gueEntriesWith]
    rw [← hcons, ih (u :: args)]
    rfl

/-- C8 -- `get_user_embeddings` calls itself (the plural method) once per
user document with an extra accumulated positional argument, so over any
non-empty users collection it never returns a dictionary at any recursion
depth; the EM engine reaches this path through `encode("users", ...)`
(`EM_engine._get_embedding`). -/
theorem get_user_embeddings_never_returns :
    (∀ (users : List String) (fuel : ℕ) (args : List String), users ≠ [] →
       get_user_embeddings users fuel args = none)
    ∧ (∀ (enc : String → Vec) (ttl now : ℤ) (fuel : ℕ) (s : EmbState) (id_user : String),
       s.store.users ≠ [] →
       EM__get_embedding enc ttl now fuel s "users" id_user = none) := by
  constructor
  · intro users fuel args h
    exact get_user_embeddings_none users h fuel args
  · intro enc ttl now fuel s id_user h
    have hids : s.store.users.map (fun u => u.id) ≠ [] := by
      simpa using h
    simp [EM__get_embedding, get_user_embeddings_none _ hids fuel []]

/-- Witness for C8: the first conjunct on the one-user collection `["u1"]`
at fuel 3. -/
theorem get_user_embeddings_never_returns_witness :
    get_user_embeddings ["u1"] 3 [] = none :=
  get_user_embeddings_never_returns.1 ["u1"] 3 [] (by decide)

/-- C5 -- behaviour of the embedding-cosine engine for a user id `u0` absent
from the document store (on a store whose users collection is non-empty):
`recommend_users` never returns (the `encode("users", ...)` path recurses
without bound), and `recommend_posts` / `recommend_threads` raise the
not-found `ValueError` from `get_user_embedding` instead of returning `[]` —
the `if user_embedding is None: return []` guard is unreachable for the
error, because `EM_engine._get_embedding` propagates the exception. -/
theorem EM_engine_missing_user_raises_or_diverges :
    (∀ fuel : ℕ, EM_recommend_users enc0 100 0 fuel cycStore "u0" = none)
    ∧ EM_recommend_posts enc0 100 0 5 cycStore "u0"
        = some (Except.error userNotFoundMsg, { cycStore with reads := [("users", "u0")] })
    ∧ EM_recommend_threads enc0 100 0 5 cycStore "u0"
        = some (Except.error userNotFoundMsg, { cycStore with reads := [("users", "u0")] }) := by
  refine ⟨?_, ?_, ?_⟩
  · intro fuel
    have hids : (cycStore.store.users.map (fun u => u.id)) ≠ [] := by
      simp [cycStore, u1doc, u2doc]
    simp [EM_recommend_users, EM__get_embedding,
      get_user_embeddings_none _ hids fuel []]
  · have hfind : findUser { users := [u1doc, u2doc], interest := [i1doc] } "u0" = none := by rfl
    norm_num [EM_recommend_posts, EM__get_embedding, get_user_embedding,
      MC__get_embedding, hfind, cycStore]
  · have hfind : findUser { users := [u1doc, u2doc], interest := [i1doc] } "u0" = none := by rfl
    norm_num [EM_recommend_threads, EM__get_embedding, get_user_embedding,
      MC__get_embedding, hfind, cycStore]

/-! ## Graph-store engines (`core/ja_engine.py`, `core/mc_engine.py`)

The graph engines read the property graph through Cypher queries.  The graph
content visible to those queries is modelled by `GraphData` (adjacency
lists); query result sets are Python sets, so adjacency is deduplicated at
use sites.  Each engine returns a pair of the Python result (or the raised
error) and a trace of the store queries it ran, in order — the trace is the
observation needed to state "no store reads happen before the weight
check". -/

structure GraphData where
  users : List String
  follows : List (String × List String)
  interests : List (String × List String)
  posts : List String
  postKeys : List (String × List String)
  likes : List (String × String)
  commentedOn : List (String × String)
  threads : List String
  members : List (String × List String)
  threadKeys : List (String × List String)
  deriving DecidableEq, Repr

def adjOf (adj : List (String × List String)) (u : String) : List String :=
  match adj.find? (fun p => p.1 == u) with
  | none => []
  | some p => p.2

/-- Python set intersection of two id sets (query rows, deduplicated). -/
def sInter (a b : List String) : List String := a.filter (fun x => b.contains x)

/-- Python set union of two id sets. -/
def sUnion (a b : List String) : List String := a ++ b.filter (fun x => !(a.contains x))

/-- `F(x)`: the set of ids `x` follows, per the FOLLOWS query rows. -/
def followSet (g : GraphData) (v : String) : List String := (adjOf g.follows v).dedup

/-- `I(x)`: the set of interest ids of `x`, per the INTERESTED_BY query rows. -/
def interestSet (g : GraphData) (v : String) : List String := (adjOf g.interests v).dedup

/-- `len(A & B) / len(A | B) if A and B else 0` — the Jaccard similarity as
written in `JA_engine.recommend_users` (0 when either set is empty). -/
def jaccardPy (a b : List String) : ℚ :=
  if a ≠ [] ∧ b ≠ [] then ((sInter a b).length : ℚ) / ((sUnion a b).length : ℚ) else 0

/-- Python's `sorted(keys, key=score.get, reverse=True)` is a *stable*
descending sort; `List.insertionSort` with the reflexive descending
comparison is also stable, hence produces the identical list. -/
def pySortedDesc (key : String → ℚ) (l : List String) : List String :=
  List.insertionSort (fun a b => key b ≤ key a) l

/-- `rec_score` of `JA_engine.recommend_users` (line 88):
`((follows_score·w_f) + (interests_score·w_i)) / 2`. -/
def JA_score (g : GraphData) (id_user : String) (follow_weight intrest_weight : ℚ)
    (v : String) : ℚ :=
  (jaccardPy (followSet g id_user) (followSet g v) * follow_weight
    + jaccardPy (interestSet g id_user) (interestSet g v) * intrest_weight) / 2

/-- `JA_engine.recommend_users` (`core/ja_engine.py`, lines 30-91): weight
gate first (before any session), then the user/candidate/follows/interests
queries, per-candidate scoring and the stable descending sort. -/
def JA_recommend_users (g : GraphData) (id_user : String)
    (follow_weight intrest_weight : ℚ) :
    Except String (List String) × List String :=
  if ¬ np_isclose (follow_weight + intrest_weight) 1 then
    (Except.error "The sum of arguments follow_weight and intrest_weight must be 1.0", [])
  else
    let cands := (g.users.filter (fun v => v != id_user)).take 20
    let trace := ["users:" ++ id_user, "candidates", "follows:" ++ id_user,
        "interests:" ++ id_user]
      ++ cands.flatMap (fun v => ["follows:" ++ v, "interests:" ++ v])
    (Except.ok (pySortedDesc (JA_score g id_user follow_weight intrest_weight) cands), trace)

/-- `MC_engine.recommend_users` (`core/mc_engine.py`, lines 24-50): weight
gate, then one Cypher query whose MATCH chain keeps only candidates with at
least one common interest *and* at least one commonly-followed user; score
`w_f·common_follows + w_i·common_interests`; `scores.values()` yields
`[user_id, score]` rows. -/
def MC_recommend_users (g : GraphData) (user_id : String)
    (follow_weight interest_weight : ℚ) (limit : ℕ) :
    Except String (List (String × ℚ)) × List String :=
  if ¬ np_isclose (follow_weight + interest_weight) 1 then
    (Except.error "The sum of arguments follow_weight and interest_weight must be 1.0", [])
  else
    let cands := g.users.filter (fun v => v != user_id
      && !(sInter (interestSet g user_id) (interestSet g v)).isEmpty
      && !(sInter (followSet g user_id) (followSet g v)).isEmpty)
    let score := fun v =>
      follow_weight * ((sInter (followSet g user_id) (followSet g v)).length : ℚ)
        + interest_weight * ((sInter (interestSet g user_id) (interestSet g v)).length : ℚ)
    (Except.ok (((pySortedDesc score cands).take limit).map (fun v => (v, score v))),
      ["cypher:recommend_users"])

/-- Keys (HAS_KEY targets) of a post. -/
def postKeySet (g : GraphData) (p : String) : List String := (adjOf g.postKeys p).dedup

/-- `MC_engine.recommend_posts` (lines 53-78): weight gate, then one query
keeping posts sharing at least one interest-key with the user; score
`w_i·interest_score + w_x·interaction_score` (interaction = LIKES plus
COMMENTED_ON edges from the user).  `record.value()[0]` indexes into the
post-id string, returning its first character. -/
def MC_recommend_posts (g : GraphData) (user_id : String)
    (interest_weight interaction_weight : ℚ) (limit : ℕ) :
    Except String (List String) × List String :=
  if ¬ np_isclose (interaction_weight + interest_weight) 1 then
    (Except.error "The sum of arguments interaction_weight and interest_weight must be 1.0", [])
  else
    let cands := g.posts.filter (fun p =>
      !(sInter (interestSet g user_id) (postKeySet g p)).isEmpty)
    let score := fun p =>
      interest_weight * ((sInter (interestSet g user_id) (postKeySet g p)).length : ℚ)
        + interaction_weight * (((if g.likes.contains (user_id, p) then 1 else 0)
            + (if g.commentedOn.contains (user_id, p) then 1 else 0) : ℕ) : ℚ)
    (Except.ok (((pySortedDesc score cands).take limit).map (fun p => p.take 1)),
      ["cypher:recommend_posts"])

/-- Members of a thread. -/
def memberSet (g : GraphData) (t : String) : List String := (adjOf g.members t).dedup

/-- Keys (HAS_KEY targets) of a thread. -/
def threadKeySet (g : GraphData) (t : String) : List String := (adjOf g.threadKeys t).dedup

/-- `MC_engine.recommend_threads` (lines 80-105): weight gate, then one
query keeping threads the user belongs to that have at least one other
member and at least one interest-key in common with the user; score
`w_m·member_score + w_i·interest_score`; `record.value()[0]` again returns
the first character of each thread id. -/
def MC_recommend_threads (g : GraphData) (user_id : String)
    (member_weight interest_weight : ℚ) (limit : ℕ) :
    Except String (List String) × List String :=
  if ¬ np_isclose (member_weight + interest_weight) 1 then
    (Except.error "The sum of arguments member_weight and interest_weight must be 1.0", [])
  else
    let cands := g.threads.filter (fun t =>
      (memberSet g t).contains user_id
        && !((memberSet g t).filter (fun m => m != user_id)).isEmpty
        && !(sInter (interestSet g user_id) (threadKeySet g t)).isEmpty)
    let score := fun t =>
      member_weight * (((memberSet g t).filter (fun m => m != user_id)).length : ℚ)
        + interest_weight * ((sInter (interestSet g user_id) (threadKeySet g t)).length : ℚ)
    (Except.ok (((pySortedDesc score cands).take limit).map (fun t => t.take 1)),
      ["cypher:recommend_threads"])

/-- The S1 fixture: u1→{u2,u3}, u2→{u3,u4}, u3→{u4}, u4→{} with interests
{i1}, {i1,i2}, {i3}, {i1}. -/
def s1Graph : GraphData :=
  { users := ["u1", "u2", "u3", "u4"],
    follows := [("u1", ["u2", "u3"]), ("u2", ["u3", "u4"]), ("u3", ["u4"]), ("u4", [])],
    interests := [("u1", ["i1"]), ("u2", ["i1", "i2"]), ("u3", ["i3"]), ("u4", ["i1"])],
    posts := [], postKeys := [], likes := [], commentedOn := [],
    threads := [], members := [], threadKeys := [] }

/-- The weight gate's tolerance against 1: `np.isclose(s, 1.0, rtol=1e-09,
atol=1e-09)` accepts exactly `|s - 1| ≤ atol + rtol·|1| = 2·10⁻⁹`. -/
theorem np_isclose_one_iff (s : ℚ) : np_isclose s 1 = true ↔ |s - 1| ≤ 2 / 1000000000 := by
  unfold np_isclose
  rw [decide_eq_true_eq, ratAbs_eq_abs, ratAbs_eq_abs, abs_one]
  constructor <;> intro h <;> [linarith; linarith]

/-- C4 -- the Jaccard engine: `J` is 0 whenever either set is empty; every
successful call returns exactly the candidates distinct from the requester
(up to the LIMIT 20 sample) sorted by non-increasing `JA_score`; and on the
S1 fixture with weights (0.5, 0.5) the returned order is `[u4, u2, u3]`. -/
theorem JA_recommend_users_spec :
    (∀ a b : List String, a = [] ∨ b = [] → jaccardPy a b = 0)
    ∧ (∀ (g : GraphData) (u : String) (fw iw : ℚ) (r : List String),
        (JA_recommend_users g u fw iw).1 = Except.ok r →
        r.Perm ((g.users.filter (fun v => v != u)).take 20)
          ∧ List.Sorted (fun x y => JA_score g u fw iw y ≤ JA_score g u fw iw x) r)
    ∧ (JA_recommend_users s1Graph "u1" (1/2) (1/2)).1 = Except.ok ["u4", "u2", "u3"] := by
  refine ⟨?_, ?_, ?_⟩
  · intro a b h
    rcases h with h | h <;> simp [jaccardPy, h]
  · intro g u fw iw r h
    by_cases hw : np_isclose (fw + iw) 1
    · simp only [JA_recommend_users, hw, not_true_eq_false, if_neg, ite_false,
        not_false_eq_true, if_true] at h
      have hr : r = pySortedDesc (JA_score g u fw iw) ((g.users.filter (fun v => v != u)).take 20) := by
        simpa using h.symm
      subst hr
      constructor
      · exact List.perm_insertionSort _ _
      · haveI : IsTotal String (fun x y => JA_score g u fw iw y ≤ JA_score g u fw iw x) :=
          ⟨fun x y => le_total _ _⟩
        haveI : IsTrans String (fun x y => JA_score g u fw iw y ≤ JA_score g u fw iw x) :=
          ⟨fun _ _ _ hxy hyz => le_trans hyz hxy⟩
        exact List.sorted_insertionSort _ _
    · simp [JA_recommend_users, hw] at h
  · have hg : np_isclose ((1:ℚ)/2 + 1/2) 1 = true := by
      rw [np_isclose_one_iff]; norm_num
    have hs2 : JA_score s1Graph "u1" (1/2) (1/2) "u2" = 5/24 := by
      have e1 : followSet s1Graph "u1" = ["u2", "u3"] := rfl
      have e2 : followSet s1Graph "u2" = ["u3", "u4"] := rfl
      have e3 : interestSet s1Graph "u1" = ["i1"] := rfl
      have e4 : interestSet s1Graph "u2" = ["i1", "i2"] := rfl
      rw [JA_score, e1, e2, e3, e4]
      norm_num +decide [jaccardPy, sInter, sUnion, List.filter_cons, List.filter_nil]
    have hs3 : JA_score s1Graph "u1" (1/2) (1/2) "u3" = 0 := by
      have e1 : followSet s1Graph "u1" = ["u2", "u3"] := rfl
      have e2 : followSet s1Graph "u3" = ["u4"] := rfl
      have e3 : interestSet s1Graph "u1" = ["i1"] := rfl
      have e4 : interestSet s1Graph "u3" = ["i3"] := rfl
      rw [JA_score, e1, e2, e3, e4]
      norm_num +decide [jaccardPy, sInter, sUnion, List.filter_cons, List.filter_nil]
    have hs4 : JA_score s1Graph "u1" (1/2) (1/2) "u4" = 1/4 := by
      have e1 : followSet s1Graph "u1" = ["u2", "u3"] := rfl
      have e2 : followSet s1Graph "u4" = [] := rfl
      have e3 : interestSet s1Graph "u1" = ["i1"] := rfl
      have e4 : interestSet s1Graph "u4" = ["i1"] := rfl
      rw [JA_score, e1, e2, e3, e4]
      norm_num +decide [jaccardPy, sInter, sUnion, List.filter_cons, List.filter_nil]
    have hc : ((s1Graph.users.filter (fun v => v != "u1")).take 20) = ["u2", "u3", "u4"] := rfl
    simp only [JA_recommend_users, hg, not_true_eq_false, if_false, hc, pySortedDesc,
      List.insertionSort, List.orderedInsert]
    norm_num [hs2, hs3, hs4]

/-- Witness for C4: the sortedness/permutation conjunct applied to the S1
fixture result. -/
theorem JA_recommend_users_spec_witness :
    List.Perm ["u4", "u2", "u3"] ((s1Graph.users.filter (fun v => v != "u1")).take 20)
      ∧ List.Sorted (fun x y => JA_score s1Graph "u1" (1/2) (1/2) y
          ≤ JA_score s1Graph "u1" (1/2) (1/2) x) ["u4", "u2", "u3"] :=
  JA_recommend_users_spec.2.1 s1Graph "u1" (1/2) (1/2) ["u4", "u2", "u3"]
    JA_recommend_users_spec.2.2

/-- C3 (amended) -- the engines' weight gate: `np.isclose(s, 1, rtol=1e-9,
atol=1e-9)` accepts exactly `|s-1| ≤ 2·10⁻⁹` (atol + rtol·|1|), so the
engines raise the weight `ValueError` — running no store query at all —
precisely when the weight sum is farther than `2·10⁻⁹` from 1 (not `10⁻⁹`). -/
theorem engines_invalid_weights_no_reads :
    (∀ s : ℚ, np_isclose s 1 = true ↔ |s - 1| ≤ 2 / 1000000000)
    ∧ (∀ (g : GraphData) (id : String) (a b : ℚ) (limit : ℕ),
        2 / 1000000000 < |a + b - 1| →
        JA_recommend_users g id a b
            = (Except.error "The sum of arguments follow_weight and intrest_weight must be 1.0", [])
          ∧ MC_recommend_users g id a b limit
            = (Except.error "The sum of arguments follow_weight and interest_weight must be 1.0", [])
          ∧ MC_recommend_posts g id a b limit
            = (Except.error "The sum of arguments interaction_weight and interest_weight must be 1.0", [])
          ∧ MC_recommend_threads g id a b limit
            = (Except.error "The sum of arguments member_weight and interest_weight must be 1.0", [])) := by
  refine ⟨np_isclose_one_iff, ?_⟩
  intro g id a b limit h
  have hab : np_isclose (a + b) 1 = false := by
    rw [← Bool.not_eq_true, np_isclose_one_iff]
    exact fun hle => absurd h (not_lt_of_le hle)
  have hba : np_isclose (b + a) 1 = false := by
    rw [add_comm] at hab
    exact hab
  refine ⟨?_, ?_, ?_, ?_⟩
  · simp [JA_recommend_users, hab]
  · simp [MC_recommend_users, hab]
  · simp [MC_recommend_posts, hba]
  · simp [MC_recommend_threads, hab]

/-- Witness for C3 (amended): the S4 weights (0.7, 0.5) on the S1 fixture,
`|0.7+0.5-1| = 0.2 > 2/10⁹`: all four engines raise and read nothing. -/
theorem engines_invalid_weights_no_reads_witness :
    JA_recommend_users s1Graph "u1" (7/10) (1/2)
        = (Except.error "The sum of arguments follow_weight and intrest_weight must be 1.0", [])
      ∧ MC_recommend_users s1Graph "u1" (7/10) (1/2) 10
        = (Except.error "The sum of arguments follow_weight and interest_weight must be 1.0", [])
      ∧ MC_recommend_posts s1Graph "u1" (7/10) (1/2) 10
        = (Except.error "The sum of arguments interaction_weight and interest_weight must be 1.0", [])
      ∧ MC_recommend_threads s1Graph "u1" (7/10) (1/2) 10
        = (Except.error "The sum of arguments member_weight and interest_weight must be 1.0", []) :=
  engines_invalid_weights_no_reads.2 s1Graph "u1" (7/10) (1/2) 10
    (by rw [show ((7:ℚ)/10 + 1/2 - 1) = 1/5 by norm_num]; norm_num [abs_of_pos])

/-- Counterexample to C3 as stated: the weight pair (0.5, 0.5 + 1.5·10⁻⁹)
has `|Σw - 1| = 1.5·10⁻⁹ > 10⁻⁹`, yet `np.isclose` accepts it: the JA
engine raises nothing, runs its queries (non-empty trace) and returns the
ranked list. -/
theorem JA_weight_tolerance_cex :
    (1 / 1000000000 : ℚ) < |(1/2 + (1/2 + 3/2000000000) : ℚ) - 1|
    ∧ (JA_recommend_users s1Graph "u1" (1/2) (1/2 + 3/2000000000)).1
        = Except.ok ["u4", "u2", "u3"]
    ∧ (JA_recommend_users s1Graph "u1" (1/2) (1/2 + 3/2000000000)).2 ≠ [] := by
  have hg : np_isclose ((1:ℚ)/2 + (1/2 + 3/2000000000)) 1 = true := by
    rw [np_isclose_one_iff]
    rw [show ((1:ℚ)/2 + (1/2 + 3/2000000000) - 1) = 3/2000000000 by norm_num]
    norm_num [abs_of_pos]
  refine ⟨?_, ?_, ?_⟩
  · rw [show ((1:ℚ)/2 + (1/2 + 3/2000000000) - 1) = 3/2000000000 by norm_num]
    norm_num [abs_of_pos]
  · have hs2 : JA_score s1Graph "u1" (1/2) (1000000003/2000000000) "u2" = 5000000009/24000000000 := by
      have e1 : followSet s1Graph "u1" = ["u2", "u3"] := rfl
      have e2 : followSet s1Graph "u2" = ["u3", "u4"] := rfl
      have e3 : interestSet s1Graph "u1" = ["i1"] := rfl
      have e4 : interestSet s1Graph "u2" = ["i1", "i2"] := rfl
      rw [JA_score, e1, e2, e3, e4]
      norm_num +decide [jaccardPy, sInter, sUnion, List.filter_cons, List.filter_nil]
    have hs3 : JA_score s1Graph "u1" (1/2) (1000000003/2000000000) "u3" = 0 := by
      have e1 : followSet s1Graph "u1" = ["u2", "u3"] := rfl
      have e2 : followSet s1Graph "u3" = ["u4"] := rfl
      have e3 : interestSet s1Graph "u1" = ["i1"] := rfl
      have e4 : interestSet s1Graph "u3" = ["i3"] := rfl
      rw [JA_score, e1, e2, e3, e4]
      norm_num +decide [jaccardPy, sInter, sUnion, List.filter_cons, List.filter_nil]
    have hs4 : JA_score s1Graph "u1" (1/2) (1000000003/2000000000) "u4" = 1000000003/4000000000 := by
      have e1 : followSet s1Graph "u1" = ["u2", "u3"] := rfl
      have e2 : followSet s1Graph "u4" = [] := rfl
      have e3 : interestSet s1Graph "u1" = ["i1"] := rfl
      have e4 : interestSet s1Graph "u4" = ["i1"] := rfl
      rw [JA_score, e1, e2, e3, e4]
      norm_num +decide [jaccardPy, sInter, sUnion, List.filter_cons, List.filter_nil]
    have hc : ((s1Graph.users.filter (fun v => v != "u1")).take 20) = ["u2", "u3", "u4"] := rfl
    simp only [JA_recommend_users, hg, not_true_eq_false, if_false, hc, pySortedDesc,
      List.insertionSort, List.orderedInsert]
    norm_num [hs2, hs3, hs4]
  · have hc : ((s1Graph.users.filter (fun v => v != "u1")).take 20) = ["u2", "u3", "u4"] := rfl
    simp only [JA_recommend_users, hg, not_true_eq_false, if_false, hc]
    decide

/-! ## Sync projector (`Recommender/database/synchronizer.py`)

`Synchronizer.synchronize` executes a sequence of Cypher statements fully
determined by the document store: `CREATE CONSTRAINT IF NOT EXISTS`,
`MERGE (n:L {key: val}) SET n += props` for each document, and
`MATCH src MATCH tgt MERGE (src)-[:REL]->(tgt)` for each relationship
reference.  We embed that sequence as a list of `SyncOp`s folded over a
graph state.

A node is identified by the triple `(label, key property, key value)` used
to MERGE or MATCH it; the uniqueness constraints make such a pattern match
at most one node, and the `SET n += props` payloads of the documents do not
carry the key properties, so a MATCH `(n:L {p: v})` succeeds exactly when a
node was merged with that very triple (or pre-existed under it).  This
keeps the `sync_posts` mismatch observable: keys are merged with property
`idKey` but HAS_KEY matches `{idkey: ...}`, a triple never created, so the
MATCH finds nothing and the edge is skipped — exactly as in the source.
Failed MATCHes make the whole statement a no-op (dangling ids skipped). -/

/-- `(label, key property name, key value)`. -/
abbrev GNodeId := String × String × String

/-- Node properties (a Cypher property map; Python dicts have unique keys). -/
abbrev GProps := List (String × String)

/-- `SET n.k = v` inside `+=`: replace in place, else append. -/
def propSet (ps : GProps) (k v : String) : GProps :=
  if ps.any (fun p => p.1 == k) then ps.map (fun p => if p.1 = k then (k, v) else p)
  else ps ++ [(k, v)]

/-- `SET n += props`: apply every key/value of the payload in order. -/
def propsAdd (base upd : GProps) : GProps :=
  upd.foldl (fun acc p => propSet acc p.1 p.2) base

/-- The graph store state: applied constraints, nodes with properties, and
directed labelled edges. -/
structure Graph where
  constraints : List String
  nodes : List (GNodeId × GProps)
  edges : List (GNodeId × String × GNodeId)
  deriving DecidableEq, Repr

/-- One projected statement. -/
inductive SyncOp where
  | constraint (c : String)
  | node (id : GNodeId) (props : GProps)
  | edge (src : GNodeId) (lbl : String) (tgt : GNodeId)
  deriving DecidableEq, Repr

def hasNodeId (g : Graph) (id : GNodeId) : Bool :=
  g.nodes.any (fun e => e.1 == id)

/-- Update the (unique, by the constraints) node matched by `id` with
`SET n += props`. -/
def updateFirst : List (GNodeId × GProps) → GNodeId → GProps → List (GNodeId × GProps)
  | [], _, _ => []
  | e :: rest, id, props =>
    if e.1 = id then (e.1, propsAdd e.2 props) :: rest
    else e :: updateFirst rest id props

/-- Execute one statement: constraints and edges are created only if absent
(`IF NOT EXISTS` / MERGE); a node MERGE updates the matched node or creates
it with its key property; an edge MERGE is a no-op unless both MATCHes
succeed. -/
def applyOp (g : Graph) : SyncOp → Graph
  | SyncOp.constraint c =>
    if c ∈ g.constraints then g else { g with constraints := g.constraints ++ [c] }
  | SyncOp.node id props =>
    if hasNodeId g id then
      { g with nodes := updateFirst g.nodes id props }
    else
      { g with nodes := g.nodes ++ [(id, propsAdd [(id.2.1, id.2.2)] props)] }
  | SyncOp.edge s lbl t =>
    if hasNodeId g s && hasNodeId g t then
      if (s, lbl, t) ∈ g.edges then g else { g with edges := g.edges ++ [(s, lbl, t)] }
    else g

def applyOps (g : Graph) (l : List SyncOp) : Graph := l.foldl applyOp g

/-- A `users` document as read by the projector (`str(_id)`, `role`,
`follow`, `blocked`, `interests`, and the remaining `SET +=` payload). -/
structure SyncUserDoc where
  id : String
  role : String
  follow : List String
  blocked : List String
  interests : List String
  props : GProps
  deriving DecidableEq, Repr

structure SyncRoleDoc where
  name : String
  extend : List String
  props : GProps
  deriving DecidableEq, Repr

structure SyncThreadDoc where
  id : String
  id_owner : String
  members : List String
  admins : List String
  props : GProps
  deriving DecidableEq, Repr

structure SyncPostDoc where
  id : String
  id_author : String
  id_thread : String
  keys : List String
  likes : List String
  comments : List String
  props : GProps
  deriving DecidableEq, Repr

structure SyncInterestDoc where
  id : String
  props : GProps
  deriving DecidableEq, Repr

structure SyncKeyDoc where
  id : String
  props : GProps
  deriving DecidableEq, Repr

/-- The Mongo collections the projector reads. -/
structure MongoStore where
  users : List SyncUserDoc
  roles : List SyncRoleDoc
  threads : List SyncThreadDoc
  posts : List SyncPostDoc
  keys : List SyncKeyDoc
  interests : List SyncInterestDoc
  deriving DecidableEq, Repr

/-- `Synchronizer.sync_users` statements for one user document (lines
51-95): node MERGE + SET, HAS_ROLE, then FOLLOWS, BLOCKS, INTERESTED_BY —
note there is no check excluding the user's own id from follow/blocked. -/
def userOps (u : SyncUserDoc) : List SyncOp :=
  [SyncOp.node ("User", "idUser", u.id) u.props,
   SyncOp.edge ("User", "idUser", u.id) "HAS_ROLE" ("Role", "name", u.role)]
  ++ u.follow.map (fun f => SyncOp.edge ("User", "idUser", u.id) "FOLLOWS" ("User", "idUser", f))
  ++ u.blocked.map (fun b => SyncOp.edge ("User", "idUser", u.id) "BLOCKS" ("User", "idUser", b))
  ++ u.interests.map (fun i =>
       SyncOp.edge ("User", "idUser", u.id) "INTERESTED_BY" ("Interest", "idInterest", i))

/-- `Synchronizer.sync_roles` statements for one role (lines 97-119). -/
def roleOps (r : SyncRoleDoc) : List SyncOp :=
  [SyncOp.node ("Role", "name", r.name) r.props]
  ++ r.extend.map (fun e => SyncOp.edge ("Role", "name", r.name) "EXTENDS" ("Role", "name", e))

/-- `Synchronizer.sync_interests` (lines 229-242). -/
def interestOps (i : SyncInterestDoc) : List SyncOp :=
  [SyncOp.node ("Interest", "idInterest", i.id) i.props]

/-- `Synchronizer.sync_keys` (lines 214-227): keys are merged under the
property `idKey`. -/
def keyOps (k : SyncKeyDoc) : List SyncOp :=
  [SyncOp.node ("Key", "idKey", k.id) k.props]

/-- `Synchronizer.sync_threads` statements for one thread (lines 121-158). -/
def threadOps (t : SyncThreadDoc) : List SyncOp :=
  [SyncOp.node ("Thread", "idThread", t.id) t.props,
   SyncOp.edge ("User", "idUser", t.id_owner) "OWNS" ("Thread", "idThread", t.id)]
  ++ t.members.map (fun m => SyncOp.edge ("User", "idUser", m) "MEMBER_OF" ("Thread", "idThread", t.id))
  ++ t.admins.map (fun a => SyncOp.edge ("User", "idUser", a) "ADMIN_OF" ("Thread", "idThread", t.id))

/-- `Synchronizer.sync_posts` statements for one post (lines 160-212).  The
HAS_KEY MATCH uses the lowercase property `idkey` (line 192), a triple that
`sync_keys` never creates. -/
def postOps (p : SyncPostDoc) : List SyncOp :=
  [SyncOp.node ("Post", "idPost", p.id) p.props,
   SyncOp.edge ("User", "idUser", p.id_author) "WRITED_BY" ("Post", "idPost", p.id),
   SyncOp.edge ("Post", "idPost", p.id) "POSTED_IN" ("Thread", "idThread", p.id_thread)]
  ++ p.keys.map (fun k => SyncOp.edge ("Post", "idPost", p.id) "HAS_KEY" ("Key", "idkey", k))
  ++ p.likes.map (fun u => SyncOp.edge ("User", "idUser", u) "LIKES" ("Post", "idPost", p.id))
  ++ p.comments.map (fun u => SyncOp.edge ("User", "idUser", u) "HAS_COMMENT" ("Post", "idPost", p.id))

/-- `Synchronizer._create_constraints` (lines 32-46). -/
def constraintOps : List SyncOp :=
  [SyncOp.constraint "User.idUser", SyncOp.constraint "Post.idPost",
   SyncOp.constraint "Thread.idThread", SyncOp.constraint "Key.idKey",
   SyncOp.constraint "Role.name", SyncOp.constraint "Interest.idInterest"]

def sync_users (d : MongoStore) (g : Graph) : Graph := applyOps g (d.users.flatMap userOps)

def sync_roles (d : MongoStore) (g : Graph) : Graph := applyOps g (d.roles.flatMap roleOps)

def sync_interests (d : MongoStore) (g : Graph) : Graph :=
  applyOps g (d.interests.flatMap interestOps)

def sync_keys (d : MongoStore) (g : Graph) : Graph := applyOps g (d.keys.flatMap keyOps)

def sync_threads (d : MongoStore) (g : Graph) : Graph := applyOps g (d.threads.flatMap threadOps)

def sync_posts (d : MongoStore) (g : Graph) : Graph := applyOps g (d.posts.flatMap postOps)

def _create_constraints (g : Graph) : Graph := applyOps g constraintOps

/-- `Synchronizer.synchronize` (lines 252-260): constraints, roles,
interests, keys, users, threads, posts. -/
def synchronize (d : MongoStore) (g : Graph) : Graph :=
  sync_posts d (sync_threads d (sync_users d (sync_keys d (sync_interests d
    (sync_roles d (_create_constraints g))))))

/-- The whole statement sequence of one `synchronize` run. -/
def opsOfStore (d : MongoStore) : List SyncOp :=
  constraintOps ++ d.roles.flatMap roleOps ++ d.interests.flatMap interestOps
    ++ d.keys.flatMap keyOps ++ d.users.flatMap userOps ++ d.threads.flatMap threadOps
    ++ d.posts.flatMap postOps

theorem applyOps_append (g : Graph) (l1 l2 : List SyncOp) :
    applyOps g (l1 ++ l2) = applyOps (applyOps g l1) l2 :=
  List.foldl_append ..

theorem synchronize_eq_applyOps (d : MongoStore) (g : Graph) :
    synchronize d g = applyOps g (opsOfStore d) := by
  simp [synchronize, opsOfStore, applyOps_append, sync_posts, sync_threads, sync_users,
    sync_keys, sync_interests, sync_roles, _create_constraints]

/-- The empty graph store. -/
def emptyGraphState : Graph := { constraints := [], nodes := [], edges := [] }

/-- Two users where the first follows the second: during the first run the
FOLLOWS MATCH for `u2` fails (its node does not exist yet), the second run
creates the edge. -/
def twoUserStore : MongoStore :=
  { users := [{ id := "u1", role := "r", follow := ["u2"], blocked := [],
                interests := [], props := [] },
              { id := "u2", role := "r", follow := [], blocked := [],
                interests := [], props := [] }],
    roles := [], threads := [], posts := [], keys := [], interests := [] }

/-- Counterexample to C2: on `twoUserStore` the second projector run adds
the FOLLOWS edge u1→u2 that the first run skipped, so two consecutive runs
do not produce the graph of a single run. -/
theorem synchronize_not_idempotent_cex :
    synchronize twoUserStore (synchronize twoUserStore emptyGraphState)
      ≠ synchronize twoUserStore emptyGraphState
    ∧ (("User", "idUser", "u1"), "FOLLOWS", ("User", "idUser", "u2"))
        ∈ (synchronize twoUserStore (synchronize twoUserStore emptyGraphState)).edges
    ∧ ¬ (("User", "idUser", "u1"), "FOLLOWS", ("User", "idUser", "u2"))
        ∈ (synchronize twoUserStore emptyGraphState).edges := by
  refine ⟨?_, by decide, by decide⟩
  intro h
  have := congrArg Graph.edges h
  revert this
  decide

/-- A store whose single user follows itself. -/
def selfFollowStore : MongoStore :=
  { users := [{ id := "u1", role := "r", follow := ["u1"], blocked := [],
                interests := [], props := [] }],
    roles := [], threads := [], posts := [], keys := [], interests := [] }

/-- Counterexample to C7: the projector has no self-edge check — for a user
whose follow set contains its own id, a FOLLOWS self-loop is merged. -/
theorem sync_users_self_edge_cex :
    (("User", "idUser", "u1"), "FOLLOWS", ("User", "idUser", "u1"))
      ∈ (synchronize selfFollowStore emptyGraphState).edges
    ∧ (("User", "idUser", "u1"), "FOLLOWS", ("User", "idUser", "u1"))
      ∈ (sync_users selfFollowStore emptyGraphState).edges := by
  constructor <;> decide

/-! ### Projector facts -/

theorem updateFirst_map_fst (l : List (GNodeId × GProps)) (id : GNodeId) (ps : GProps) :
    (updateFirst l id ps).map Prod.fst = l.map Prod.fst := by
  induction l with
  | nil => rfl
  | cons e rest ih =>
    by_cases h : e.1 = id <;> simp [updateFirst, h, ih]


theorem hasNodeId_iff {g : Graph} {id : GNodeId} :
    hasNodeId g id = true ↔ id ∈ g.nodes.map Prod.fst := by
  simp [hasNodeId, List.any_eq_true, List.mem_map, beq_iff_eq]

/-- Constraints only grow. -/
theorem constraints_applyOp (g : Graph) (o : SyncOp) :
    ∃ ex, (applyOp g o).constraints = g.constraints ++ ex := by
  cases o with
  | constraint c =>
    by_cases hc : c ∈ g.constraints
    · exact ⟨[], by simp [applyOp, hc]⟩
    · exact ⟨[c], by simp [applyOp, hc]⟩
  | node id ps =>
    by_cases hp : hasNodeId g id
    · exact ⟨[], by simp [applyOp, hp]⟩
    · exact ⟨[], by simp [applyOp, hp]⟩
  | edge s lbl t =>
    by_cases hb : hasNodeId g s && hasNodeId g t
    · by_cases he : (s, lbl, t) ∈ g.edges
      · exact ⟨[], by simp [applyOp, hb, he]⟩
      · exact ⟨[], by simp [applyOp, hb, he]⟩
    · exact ⟨[], by simp [applyOp, hb]⟩

/-- The node-id column only grows. -/
theorem nodesfst_applyOp (g : Graph) (o : SyncOp) :
    ∃ ex, (applyOp g o).nodes.map Prod.fst = g.nodes.map Prod.fst ++ ex := by
  cases o with
  | constraint c =>
    by_cases hc : c ∈ g.constraints
    · exact ⟨[], by simp [applyOp, hc]⟩
    · exact ⟨[], by simp [applyOp, hc]⟩
  | node id ps =>
    by_cases hp : hasNodeId g id
    · exact ⟨[], by simp [applyOp, hp, updateFirst_map_fst]⟩
    · exact ⟨[id], by simp [applyOp, hp]⟩
  | edge s lbl t =>
    by_cases hb : hasNodeId g s && hasNodeId g t
    · by_cases he : (s, lbl, t) ∈ g.edges
      · exact ⟨[], by simp [applyOp, hb, he]⟩
      · exact ⟨[], by simp [applyOp, hb, he]⟩
    · exact ⟨[], by simp [applyOp, hb]⟩

/-- Edges only grow. -/
theorem edges_applyOp (g : Graph) (o : SyncOp) :
    ∃ ex, (applyOp g o).edges = g.edges ++ ex := by
  cases o with
  | constraint c =>
    by_cases hc : c ∈ g.constraints
    · exact ⟨[], by simp [applyOp, hc]⟩
    · exact ⟨[], by simp [applyOp, hc]⟩
  | node id ps =>
    by_cases hp : hasNodeId g id
    · exact ⟨[], by simp [applyOp, hp]⟩
    · exact ⟨[], by simp [applyOp, hp]⟩
  | edge s lbl t =>
    by_cases hb : hasNodeId g s && hasNodeId g t
    · by_cases he : (s, lbl, t) ∈ g.edges
      · exact ⟨[], by simp [applyOp, hb, he]⟩
      · exact ⟨[(s, lbl, t)], by simp [applyOp, hb, he]⟩
    · exact ⟨[], by simp [applyOp, hb]⟩

theorem hasNodeId_applyOp {g : Graph} {id : GNodeId} (h : hasNodeId g id = true)
    (o : SyncOp) : hasNodeId (applyOp g o) id = true := by
  obtain ⟨ex, hex⟩ := nodesfst_applyOp g o
  rw [hasNodeId_iff, hex]
  exact List.mem_append_left _ (hasNodeId_iff.mp h)

theorem hasNodeId_applyOps {g : Graph} {id : GNodeId} (h : hasNodeId g id = true)
    (l : List SyncOp) : hasNodeId (applyOps g l) id = true := by
  induction l generalizing g with
  | nil => exact h
  | cons o rest ih => exact ih (hasNodeId_applyOp h o)

theorem mem_edges_applyOp {g : Graph} {e : GNodeId × String × GNodeId}
    (h : e ∈ g.edges) (o : SyncOp) : e ∈ (applyOp g o).edges := by
  obtain ⟨ex, hex⟩ := edges_applyOp g o
  rw [hex]
  exact List.mem_append_left _ h

theorem mem_edges_applyOps {g : Graph} {e : GNodeId × String × GNodeId}
    (h : e ∈ g.edges) (l : List SyncOp) : e ∈ (applyOps g l).edges := by
  induction l generalizing g with
  | nil => exact h
  | cons o rest ih => exact ih (mem_edges_applyOp h o)

theorem mem_constraints_applyOp {g : Graph} {c : String}
    (h : c ∈ g.constraints) (o : SyncOp) : c ∈ (applyOp g o).constraints := by
  obtain ⟨ex, hex⟩ := constraints_applyOp g o
  rw [hex]
  exact List.mem_append_left _ h

theorem mem_constraints_applyOps {g : Graph} {c : String}
    (h : c ∈ g.constraints) (l : List SyncOp) : c ∈ (applyOps g l).constraints := by
  induction l generalizing g with
  | nil => exact h
  | cons o rest ih => exact ih (mem_constraints_applyOp h o)

/-- Node-op targets of a statement list. -/
def nodeIds (l : List SyncOp) : List GNodeId :=
  l.filterMap (fun o => match o with | SyncOp.node id _ => some id | _ => none)

/-- Constraint names of a statement list. -/
def constraintNames (l : List SyncOp) : List String :=
  l.filterMap (fun o => match o with | SyncOp.constraint c => some c | _ => none)

theorem hasNodeId_after_own (g : Graph) (id : GNodeId) (ps : GProps) :
    hasNodeId (applyOp g (SyncOp.node id ps)) id = true := by
  by_cases hp : hasNodeId g id
  · exact hasNodeId_applyOp hp _
  · simp only [applyOp, hp, Bool.false_eq_true, if_false]
    rw [hasNodeId_iff]
    simp

theorem nodeIds_establish {l : List SyncOp} {id : GNodeId} (hid : id ∈ nodeIds l)
    (g : Graph) : hasNodeId (applyOps g l) id = true := by
  induction l generalizing g with
  | nil => simp [nodeIds] at hid
  | cons o rest ih =>
    have hsplit : (∃ ps, o = SyncOp.node id ps) ∨ id ∈ nodeIds rest := by
      cases o with
      | node id' ps =>
        simp only [nodeIds, List.filterMap_cons] at hid
        rcases List.mem_cons.mp hid with h | h
        · exact Or.inl ⟨ps, by rw [h]⟩
        · exact Or.inr h
      | constraint c => exact Or.inr (by simpa [nodeIds, List.filterMap_cons] using hid)
      | edge s lbl t => exact Or.inr (by simpa [nodeIds, List.filterMap_cons] using hid)
    rcases hsplit with ⟨ps, rfl⟩ | hrest
    · exact hasNodeId_applyOps (hasNodeId_after_own g id ps) rest
    · exact ih hrest _

theorem constraints_establish {l : List SyncOp} {c : String}
    (hc : c ∈ constraintNames l) (g : Graph) : c ∈ (applyOps g l).constraints := by
  induction l generalizing g with
  | nil => simp [constraintNames] at hc
  | cons o rest ih =>
    have hsplit : o = SyncOp.constraint c ∨ c ∈ constraintNames rest := by
      cases o with
      | constraint c' =>
        simp only [constraintNames, List.filterMap_cons] at hc
        rcases List.mem_cons.mp hc with h | h
        · exact Or.inl (by rw [h])
        · exact Or.inr h
      | node id ps => exact Or.inr (by simpa [constraintNames, List.filterMap_cons] using hc)
      | edge s lbl t => exact Or.inr (by simpa [constraintNames, List.filterMap_cons] using hc)
    rcases hsplit with rfl | hrest
    · refine mem_constraints_applyOps ?_ rest
      by_cases hin : c ∈ g.constraints
      · simp [applyOp, hin]
      · simp only [applyOp, hin, if_false, ite_false]
        exact List.mem_append_right _ (by simp)
    · exact ih hrest _

/-- No FOLLOWS or BLOCKS edge loops on a single node. -/
def NoSelfFollowBlock (g : Graph) : Prop :=
  ∀ s lbl t, (s, lbl, t) ∈ g.edges → lbl = "FOLLOWS" ∨ lbl = "BLOCKS" → s ≠ t

/-- An op that cannot introduce a FOLLOWS/BLOCKS self-loop. -/
def SelfSafeOp (o : SyncOp) : Prop :=
  match o with
  | SyncOp.edge s lbl t => (lbl = "FOLLOWS" ∨ lbl = "BLOCKS") → s ≠ t
  | _ => True

theorem edges_applyOp_cases (g : Graph) (o : SyncOp) :
    (applyOp g o).edges = g.edges
    ∨ ∃ s lbl t, o = SyncOp.edge s lbl t ∧ (applyOp g o).edges = g.edges ++ [(s, lbl, t)] := by
  cases o with
  | constraint c =>
    left
    by_cases hc : c ∈ g.constraints <;> simp [applyOp, hc]
  | node id ps =>
    left
    by_cases hp : hasNodeId g id <;> simp [applyOp, hp]
  | edge s lbl t =>
    by_cases hb : hasNodeId g s && hasNodeId g t
    · by_cases he : (s, lbl, t) ∈ g.edges
      · left; simp [applyOp, hb, he]
      · right; exact ⟨s, lbl, t, rfl, by simp [applyOp, hb, he]⟩
    · left; simp [applyOp, hb]

theorem noSelf_applyOp {g : Graph} {o : SyncOp} (h : NoSelfFollowBlock g)
    (ho : SelfSafeOp o) : NoSelfFollowBlock (applyOp g o) := by
  intro s lbl t hmem hl
  rcases edges_applyOp_cases g o with hc | ⟨s', lbl', t', rfl, hc⟩
  · exact h s lbl t (hc ▸ hmem) hl
  · rw [hc] at hmem
    rcases List.mem_append.mp hmem with hin | hnew
    · exact h s lbl t hin hl
    · have heq : (s, lbl, t) = (s', lbl', t') := by simpa using hnew
      have h1 : s = s' := congrArg Prod.fst heq
      have h2 : lbl = lbl' := congrArg (fun x => x.2.1) heq
      have h3 : t = t' := congrArg (fun x => x.2.2) heq
      subst h1; subst h2; subst h3
      exact ho hl

theorem noSelf_applyOps {g : Graph} {l : List SyncOp} (h : NoSelfFollowBlock g)
    (ho : ∀ o ∈ l, SelfSafeOp o) : NoSelfFollowBlock (applyOps g l) := by
  induction l generalizing g with
  | nil => exact h
  | cons o rest ih =>
    exact ih (noSelf_applyOp h (ho o (by simp))) (fun o' ho' => ho o' (by simp [ho']))

/-- All statements of a run are self-safe when follow/blocked are
irreflexive in every user document. -/
theorem opsOfStore_selfSafe {d : MongoStore}
    (hirr : ∀ u ∈ d.users, u.id ∉ u.follow ∧ u.id ∉ u.blocked) :
    ∀ o ∈ opsOfStore d, SelfSafeOp o := by
  intro o ho
  simp only [opsOfStore, List.mem_append] at ho
  rcases ho with ((((((hc | hr) | hi) | hk) | hu) | ht) | hp)
  · -- constraints
    simp only [constraintOps, List.mem_cons, List.not_mem_nil, or_false] at hc
    rcases hc with rfl | rfl | rfl | rfl | rfl | rfl <;> trivial
  · -- roles
    obtain ⟨r, _, hor⟩ := List.mem_flatMap.mp hr
    simp only [roleOps, List.mem_cons, List.mem_append, List.mem_map,
      List.not_mem_nil, or_false] at hor
    rcases hor with rfl | ⟨e, _, rfl⟩
    · trivial
    · intro hlbl; simp at hlbl
  · obtain ⟨i, _, hoi⟩ := List.mem_flatMap.mp hi
    simp only [interestOps, List.mem_cons, List.not_mem_nil, or_false] at hoi
    subst hoi; trivial
  · obtain ⟨k, _, hok⟩ := List.mem_flatMap.mp hk
    simp only [keyOps, List.mem_cons, List.not_mem_nil, or_false] at hok
    subst hok; trivial
  · -- users: the interesting case
    obtain ⟨u, hu', hou⟩ := List.mem_flatMap.mp hu
    obtain ⟨hf, hb⟩ := hirr u hu'
    simp only [userOps, List.mem_cons, List.mem_append, List.mem_map,
      List.not_mem_nil, or_false] at hou
    rcases hou with (((rfl | rfl) | ⟨f, hfm, rfl⟩) | ⟨b, hbm, rfl⟩) | ⟨i, _, rfl⟩
    · trivial
    · intro hlbl; simp at hlbl
    · intro _
      intro hcontra
      have : u.id = f := by
        have := congrArg (fun x : GNodeId => x.2.2) hcontra
        simpa using this
      exact hf (this ▸ hfm)
    · intro _
      intro hcontra
      have : u.id = b := by
        have := congrArg (fun x : GNodeId => x.2.2) hcontra
        simpa using this
      exact hb (this ▸ hbm)
    · intro hlbl; simp at hlbl
  · obtain ⟨t, _, hot⟩ := List.mem_flatMap.mp ht
    simp only [threadOps, List.mem_cons, List.mem_append, List.mem_map,
      List.not_mem_nil, or_false] at hot
    rcases hot with ((rfl | rfl) | ⟨m, _, rfl⟩) | ⟨a, _, rfl⟩
    · trivial
    · intro hlbl; simp at hlbl
    · intro hlbl; simp at hlbl
    · intro hlbl; simp at hlbl
  · obtain ⟨p2, _, hop⟩ := List.mem_flatMap.mp hp
    simp only [postOps, List.mem_cons, List.mem_append, List.mem_map,
      List.not_mem_nil, or_false] at hop
    rcases hop with ((((rfl | rfl | rfl) | ⟨k, _, rfl⟩) | ⟨l2, _, rfl⟩) | ⟨c2, _, rfl⟩)
    · trivial
    · intro hlbl; simp at hlbl
    · intro hlbl; simp at hlbl
    · intro hlbl; simp at hlbl
    · intro hlbl; simp at hlbl
    · intro hlbl; simp at hlbl

/-- An edge statement in the list whose endpoints already exist ends up in
the graph (MERGE: created if absent, kept if present). -/
theorem edge_establish {l : List SyncOp} {s t : GNodeId} {lbl : String}
    (hmem : SyncOp.edge s lbl t ∈ l) {g : Graph}
    (hs : hasNodeId g s = true) (ht : hasNodeId g t = true) :
    (s, lbl, t) ∈ (applyOps g l).edges := by
  induction l generalizing g with
  | nil => simp at hmem
  | cons o rest ih =>
    rcases List.mem_cons.mp hmem with heq | hrest
    · have hcons : applyOps g (o :: rest) = applyOps (applyOp g o) rest := rfl
      rw [hcons]
      refine mem_edges_applyOps ?_ rest
      subst heq
      have hcond : (hasNodeId g s && hasNodeId g t) = true := by simp [hs, ht]
      by_cases he : (s, lbl, t) ∈ g.edges
      · simp [applyOp, hcond, he]
      · simp [applyOp, hcond, he]
    · have hcons : applyOps g (o :: rest) = applyOps (applyOp g o) rest := rfl
      rw [hcons]
      exact ih hrest (hasNodeId_applyOp hs o) (hasNodeId_applyOp ht o)

/-- For a user document that follows itself, running its own statement
block merges the FOLLOWS self-loop: the node MERGE precedes the edge
MERGE, so both endpoints exist when the edge statement runs. -/
theorem self_follow_edge_userOps (u : SyncUserDoc) (hf : u.id ∈ u.follow) (g : Graph) :
    (("User", "idUser", u.id), "FOLLOWS", ("User", "idUser", u.id))
      ∈ (applyOps g (userOps u)).edges := by
  have hshape : userOps u
      = [SyncOp.node ("User", "idUser", u.id) u.props]
        ++ ([SyncOp.edge ("User", "idUser", u.id) "HAS_ROLE" ("Role", "name", u.role)]
        ++ (u.follow.map (fun f =>
              SyncOp.edge ("User", "idUser", u.id) "FOLLOWS" ("User", "idUser", f))
           ++ u.blocked.map (fun b =>
              SyncOp.edge ("User", "idUser", u.id) "BLOCKS" ("User", "idUser", b))
           ++ u.interests.map (fun i =>
              SyncOp.edge ("User", "idUser", u.id) "INTERESTED_BY"
                ("Interest", "idInterest", i)))) := by
    simp [userOps]
  rw [hshape, applyOps_append, applyOps_append]
  refine edge_establish ?_ ?_ ?_
  · exact List.mem_append_left _ (List.mem_append_left _ (List.mem_map_of_mem _ hf))
  · exact hasNodeId_applyOps (hasNodeId_after_own g _ u.props) _
  · exact hasNodeId_applyOps (hasNodeId_after_own g _ u.props) _

/-- A full `synchronize` run merges the FOLLOWS self-loop of every
self-referencing user document. -/
theorem self_follow_edge_synchronize {d : MongoStore} {u : SyncUserDoc}
    (hu : u ∈ d.users) (hf : u.id ∈ u.follow) (g : Graph) :
    (("User", "idUser", u.id), "FOLLOWS", ("User", "idUser", u.id))
      ∈ (synchronize d g).edges := by
  rw [synchronize_eq_applyOps]
  obtain ⟨l1, l2, hsplit⟩ := List.append_of_mem hu
  rw [opsOfStore, hsplit]
  simp only [List.flatMap_append, List.flatMap_cons, applyOps_append]
  exact mem_edges_applyOps (mem_edges_applyOps (mem_edges_applyOps
    (self_follow_edge_userOps u hf _) _) _) _

theorem noSelf_synchronize {d : MongoStore} {g : Graph}
    (hirr : ∀ u ∈ d.users, u.id ∉ u.follow ∧ u.id ∉ u.blocked)
    (h : NoSelfFollowBlock g) : NoSelfFollowBlock (synchronize d g) := by
  rw [synchronize_eq_applyOps]
  exact noSelf_applyOps h (opsOfStore_selfSafe hirr)

/-- C7 (amended): the graph projector does NOT skip self-edges — for every
user document whose follow set contains its own id, the FOLLOWS self-loop
is merged into the graph by `synchronize`.  The no-self-loop invariant of
the spec holds only conditionally: when every user document has
irreflexive follow and blocked sets and the initial graph has no
FOLLOWS/BLOCKS self-loop, the synchronized graph has none either. -/
theorem sync_users_self_edges (d : MongoStore) (g : Graph) :
    (∀ u ∈ d.users, u.id ∈ u.follow →
      (("User", "idUser", u.id), "FOLLOWS", ("User", "idUser", u.id))
        ∈ (synchronize d g).edges)
    ∧ ((∀ u ∈ d.users, u.id ∉ u.follow ∧ u.id ∉ u.blocked) →
        NoSelfFollowBlock g → NoSelfFollowBlock (synchronize d g)) :=
  ⟨fun _ hu hf => self_follow_edge_synchronize hu hf g,
   fun hirr h => noSelf_synchronize hirr h⟩

/-- Witness for C7 at concrete stores: the self-loop of `selfFollowStore`
is created, and synchronizing the irreflexive `twoUserStore` from the
empty graph yields no FOLLOWS/BLOCKS self-loop. -/
theorem sync_users_self_edges_witness :
    (("User", "idUser", "u1"), "FOLLOWS", ("User", "idUser", "u1"))
      ∈ (synchronize selfFollowStore emptyGraphState).edges
    ∧ NoSelfFollowBlock (synchronize twoUserStore emptyGraphState) := by
  constructor
  · exact (sync_users_self_edges selfFollowStore emptyGraphState).1
      { id := "u1", role := "r", follow := ["u1"], blocked := [],
        interests := [], props := [] } (by decide) (by decide)
  · exact (sync_users_self_edges twoUserStore emptyGraphState).2 (by decide)
      (by intro s lbl t hmem hor; exact absurd hmem (by simp [emptyGraphState]))

/-! ### `SET n += props` idempotence (C2) -/

theorem propSet_any (ps : GProps) (k v k2 : String) :
    (propSet ps k v).any (fun p => p.1 == k2)
      = (ps.any (fun p => p.1 == k2) || (k == k2)) := by
  by_cases h : ps.any (fun p => p.1 == k) = true
  · have hcomp : ((fun p : String × String => p.1 == k2)
        ∘ (fun p : String × String => if p.1 = k then (k, v) else p))
        = fun p : String × String => p.1 == k2 := by
      funext p
      by_cases hp : p.1 = k
      · simp [Function.comp, hp]
      · simp [Function.comp, hp]
    simp only [propSet, h, if_true, List.any_map, hcomp]
    by_cases hk : k = k2
    · subst hk
      simp [h]
    · simp [hk]
  · have h2 : ps.any (fun p => p.1 == k) = false := Bool.eq_false_iff.mpr h
    simp [propSet, h2, List.any_append]

theorem propsAdd_any (upd : GProps) : ∀ (base : GProps) (k2 : String),
    (propsAdd base upd).any (fun p => p.1 == k2)
      = (base.any (fun p => p.1 == k2) || upd.any (fun p => p.1 == k2)) := by
  induction upd with
  | nil => intro base k2; simp [propsAdd]
  | cons q rest ih =>
    intro base k2
    have hstep : propsAdd base (q :: rest) = propsAdd (propSet base q.1 q.2) rest := rfl
    rw [hstep, ih, propSet_any]
    simp [Bool.or_assoc]

theorem propSet_entry_self (ps : GProps) (k v : String) :
    ∀ p ∈ propSet ps k v, p.1 = k → p = (k, v) := by
  intro p hp hk
  by_cases h : ps.any (fun q => q.1 == k) = true
  · simp only [propSet, h, if_true] at hp
    obtain ⟨q, hq, rfl⟩ := List.mem_map.mp hp
    by_cases hq1 : q.1 = k
    · simp [hq1]
    · simp only [if_neg hq1] at hk
      exact absurd hk hq1
  · have h2 : ps.any (fun q => q.1 == k) = false := Bool.eq_false_iff.mpr h
    simp only [propSet, h2, Bool.false_eq_true, if_false] at hp
    rcases List.mem_append.mp hp with hp | hp
    · rw [List.any_eq_false] at h2
      exact absurd (by simp [hk]) (h2 p hp)
    · simpa using hp

theorem propSet_entry_keep {ps : GProps} {k v : String} (k2 v2 : String)
    (hval : ∀ p ∈ ps, p.1 = k → p = (k, v)) (hne : k2 ≠ k) :
    ∀ p ∈ propSet ps k2 v2, p.1 = k → p = (k, v) := by
  intro p hp hk
  by_cases h : ps.any (fun q => q.1 == k2) = true
  · simp only [propSet, h, if_true] at hp
    obtain ⟨q, hq, rfl⟩ := List.mem_map.mp hp
    by_cases hq1 : q.1 = k2
    · simp only [if_pos hq1] at hk
      exact absurd hk hne
    · simp only [if_neg hq1] at hk ⊢
      exact hval q hq hk
  · have h2 : ps.any (fun q => q.1 == k2) = false := Bool.eq_false_iff.mpr h
    simp only [propSet, h2, Bool.false_eq_true, if_false] at hp
    rcases List.mem_append.mp hp with hp | hp
    · exact hval p hp hk
    · have : p = (k2, v2) := by simpa using hp
      subst this
      exact absurd hk hne

theorem propsAdd_entry_keep {k v : String} : ∀ (upd : GProps) (ps : GProps),
    (∀ p ∈ ps, p.1 = k → p = (k, v)) → (∀ q ∈ upd, q.1 ≠ k) →
    ∀ p ∈ propsAdd ps upd, p.1 = k → p = (k, v) := by
  intro upd
  induction upd with
  | nil => intro ps hval _; exact hval
  | cons q rest ih =>
    intro ps hval hne
    have hstep : propsAdd ps (q :: rest) = propsAdd (propSet ps q.1 q.2) rest := rfl
    rw [hstep]
    exact ih (propSet ps q.1 q.2)
      (propSet_entry_keep q.1 q.2 hval (hne q (by simp)))
      (fun r hr => hne r (by simp [hr]))

theorem propsAdd_entry : ∀ (upd : GProps) (base : GProps),
    (upd.map Prod.fst).Nodup →
    ∀ q ∈ upd, ∀ p ∈ propsAdd base upd, p.1 = q.1 → p = (q.1, q.2) := by
  intro upd
  induction upd with
  | nil => intro base _ q hq; simp at hq
  | cons q0 rest ih =>
    intro base hnodup q hq
    have hnd : (q0.1 ∉ rest.map Prod.fst) ∧ (rest.map Prod.fst).Nodup :=
      List.nodup_cons.mp (by simpa using hnodup)
    have hstep : propsAdd base (q0 :: rest) = propsAdd (propSet base q0.1 q0.2) rest := rfl
    rcases List.mem_cons.mp hq with rfl | hq2
    · rw [hstep]
      refine propsAdd_entry_keep rest (propSet base q.1 q.2)
        (propSet_entry_self base q.1 q.2) ?_
      intro r hr hr1
      exact hnd.1 (hr1 ▸ List.mem_map_of_mem Prod.fst hr)
    · rw [hstep]
      exact ih (propSet base q0.1 q0.2) hnd.2 q hq2

theorem propSet_id {ps : GProps} {k v : String}
    (hval : ∀ p ∈ ps, p.1 = k → p = (k, v))
    (hany : ps.any (fun p => p.1 == k) = true) :
    propSet ps k v = ps := by
  rw [show propSet ps k v = ps.map (fun p => if p.1 = k then (k, v) else p) from by
    simp [propSet, hany]]
  have hid : ∀ p ∈ ps, (if p.1 = k then (k, v) else p) = id p := by
    intro p hp
    by_cases hp1 : p.1 = k
    · rw [if_pos hp1]
      exact (hval p hp hp1).symm
    · rw [if_neg hp1]
      rfl
  rw [List.map_congr_left hid, List.map_id]

theorem propsAdd_fix : ∀ (upd : GProps) (ps : GProps),
    (∀ q ∈ upd, ∀ p ∈ ps, p.1 = q.1 → p = (q.1, q.2)) →
    (∀ q ∈ upd, ps.any (fun p => p.1 == q.1) = true) →
    propsAdd ps upd = ps := by
  intro upd
  induction upd with
  | nil => intro ps _ _; rfl
  | cons q rest ih =>
    intro ps hval hany
    have hstep : propsAdd ps (q :: rest) = propsAdd (propSet ps q.1 q.2) rest := rfl
    rw [hstep, propSet_id (hval q (by simp)) (hany q (by simp))]
    exact ih ps (fun q2 hq2 => hval q2 (by simp [hq2])) (fun q2 hq2 => hany q2 (by simp [hq2]))

/-- A second identical `SET n += props` is a no-op when the payload has no
duplicate keys (Python dict payloads never do). -/
theorem propsAdd_idem (base : GProps) {upd : GProps}
    (hnodup : (upd.map Prod.fst).Nodup) :
    propsAdd (propsAdd base upd) upd = propsAdd base upd := by
  refine propsAdd_fix upd (propsAdd base upd) ?_ ?_
  · intro q hq p hp hpk
    exact propsAdd_entry upd base hnodup q hq p hp hpk
  · intro q hq
    rw [propsAdd_any]
    have hq2 : upd.any (fun p => p.1 == q.1) = true :=
      List.any_eq_true.mpr ⟨q, hq, by simp⟩
    simp [hq2]

/-! ### Tracking the matched node through runs (C2) -/

/-- The properties of the node matched by `id`, if any. -/
def firstProps (g : Graph) (id : GNodeId) : Option GProps :=
  (g.nodes.find? (fun e => e.1 == id)).map Prod.snd

theorem find?_append_single {α : Type} (p : α → Bool) (a : α) (ha : p a = false) :
    ∀ (l : List α), (l ++ [a]).find? p = l.find? p := by
  intro l
  induction l with
  | nil =>
    rw [List.nil_append, List.find?_cons_of_neg _ (by simp [ha])]
  | cons b rest ih =>
    by_cases hb : p b = true
    · rw [List.cons_append, List.find?_cons_of_pos _ hb, List.find?_cons_of_pos _ hb]
    · rw [List.cons_append, List.find?_cons_of_neg _ hb, List.find?_cons_of_neg _ hb]
      exact ih

theorem find?_append_single_hit {α : Type} (p : α → Bool) (a : α) (ha : p a = true) :
    ∀ (l : List α), l.find? p = none → (l ++ [a]).find? p = some a := by
  intro l
  induction l with
  | nil =>
    intro _
    rw [List.nil_append, List.find?_cons_of_pos _ ha]
  | cons b rest ih =>
    intro hl
    have hb : ¬ (p b = true) := by
      intro hb
      rw [List.find?_cons_of_pos _ hb] at hl
      exact Option.some_ne_none _ hl
    rw [List.find?_cons_of_neg _ hb] at hl
    rw [List.cons_append, List.find?_cons_of_neg _ hb]
    exact ih hl

theorem updateFirst_find?_ne {id id2 : GNodeId} (h : id ≠ id2) (ps : GProps) :
    ∀ (l : List (GNodeId × GProps)),
    (updateFirst l id2 ps).find? (fun e => e.1 == id) = l.find? (fun e => e.1 == id) := by
  intro l
  induction l with
  | nil => rfl
  | cons e rest ih =>
    by_cases hid : e.1 = id
    · have he2 : ¬ (e.1 = id2) := by rw [hid]; exact h
      rw [show updateFirst (e :: rest) id2 ps = e :: updateFirst rest id2 ps from by
        simp [updateFirst, he2]]
      rw [List.find?_cons_of_pos _ (by simp [hid]), List.find?_cons_of_pos _ (by simp [hid])]
    · by_cases he : e.1 = id2
      · rw [show updateFirst (e :: rest) id2 ps = (e.1, propsAdd e.2 ps) :: rest from by
          simp [updateFirst, he]]
        rw [List.find?_cons_of_neg _ (by simp [hid]), List.find?_cons_of_neg _ (by simp [hid])]
      · rw [show updateFirst (e :: rest) id2 ps = e :: updateFirst rest id2 ps from by
          simp [updateFirst, he]]
        rw [List.find?_cons_of_neg _ (by simp [hid]), List.find?_cons_of_neg _ (by simp [hid])]
        exact ih

theorem updateFirst_find?_self {id : GNodeId} (ps : GProps) :
    ∀ (l : List (GNodeId × GProps)) (en : GNodeId × GProps),
    l.find? (fun e => e.1 == id) = some en →
    (updateFirst l id ps).find? (fun e => e.1 == id) = some (en.1, propsAdd en.2 ps) := by
  intro l
  induction l with
  | nil => intro en h; simp at h
  | cons e rest ih =>
    intro en h
    by_cases hid : e.1 = id
    · rw [List.find?_cons_of_pos _ (by simp [hid])] at h
      obtain rfl := Option.some.inj h
      rw [show updateFirst (e :: rest) id ps = (e.1, propsAdd e.2 ps) :: rest from by
        simp [updateFirst, hid]]
      rw [List.find?_cons_of_pos _ (by simp [hid])]
    · rw [List.find?_cons_of_neg _ (by simp [hid])] at h
      rw [show updateFirst (e :: rest) id ps = e :: updateFirst rest id ps from by
        simp [updateFirst, hid]]
      rw [List.find?_cons_of_neg _ (by simp [hid])]
      exact ih en h

theorem updateFirst_id {id : GNodeId} {ps : GProps} :
    ∀ (l : List (GNodeId × GProps)) (en : GNodeId × GProps),
    l.find? (fun e => e.1 == id) = some en → propsAdd en.2 ps = en.2 →
    updateFirst l id ps = l := by
  intro l
  induction l with
  | nil => intro en _ _; rfl
  | cons e rest ih =>
    intro en h hfix
    by_cases hid : e.1 = id
    · rw [List.find?_cons_of_pos _ (by simp [hid])] at h
      obtain rfl := Option.some.inj h
      rw [show updateFirst (e :: rest) id ps = (e.1, propsAdd e.2 ps) :: rest from by
        simp [updateFirst, hid]]
      rw [hfix]
    · rw [List.find?_cons_of_neg _ (by simp [hid])] at h
      rw [show updateFirst (e :: rest) id ps = e :: updateFirst rest id ps from by
        simp [updateFirst, hid]]
      rw [ih en h hfix]

theorem firstProps_applyOp_ne {g : Graph} {id : GNodeId} {o : SyncOp}
    (h : ∀ ps, o ≠ SyncOp.node id ps) :
    firstProps (applyOp g o) id = firstProps g id := by
  cases o with
  | constraint c =>
    by_cases hc : c ∈ g.constraints <;> simp [applyOp, hc, firstProps]
  | node id2 ps =>
    have hne : id2 ≠ id := by
      intro heq
      exact h ps (by rw [heq])
    by_cases hp : hasNodeId g id2 = true
    · simp only [applyOp, hp, if_true, firstProps]
      rw [updateFirst_find?_ne (Ne.symm hne) ps]
    · simp only [applyOp, hp, Bool.false_eq_true, if_false, firstProps]
      rw [find?_append_single _ _ (by simp [hne])]
  | edge s lbl t =>
    by_cases hb : (hasNodeId g s && hasNodeId g t) = true
    · by_cases heg : (s, lbl, t) ∈ g.edges <;> simp [applyOp, hb, heg, firstProps]
    · simp [applyOp, hb, firstProps]

theorem firstProps_applyOp_self (g : Graph) (id : GNodeId) (ps : GProps) :
    ∃ X, firstProps (applyOp g (SyncOp.node id ps)) id = some (propsAdd X ps) := by
  by_cases hp : hasNodeId g id = true
  · have hany : ∃ e ∈ g.nodes, e.1 = id := by
      simpa [hasNodeId, List.any_eq_true] using hp
    obtain ⟨e, he, heq⟩ := hany
    have hsome : (g.nodes.find? (fun e => e.1 == id)).isSome :=
      List.find?_isSome.mpr ⟨e, he, by simp [heq]⟩
    obtain ⟨en, hen⟩ := Option.isSome_iff_exists.mp hsome
    refine ⟨en.2, ?_⟩
    simp only [applyOp, hp, if_true, firstProps]
    rw [updateFirst_find?_self ps g.nodes en hen]
    rfl
  · refine ⟨[(id.2.1, id.2.2)], ?_⟩
    have hnone : g.nodes.find? (fun e => e.1 == id) = none := by
      rw [List.find?_eq_none]
      intro e he heq
      exact hp (List.any_eq_true.mpr ⟨e, he, heq⟩)
    simp only [applyOp, hp, Bool.false_eq_true, if_false, firstProps]
    rw [find?_append_single_hit _ _ (by simp) _ hnone]
    rfl

/-- The `SET +=` payloads that a statement list applies to the node
matched by `id`. -/
def nodePayloads (l : List SyncOp) (id : GNodeId) : List GProps :=
  l.filterMap (fun o => match o with
    | SyncOp.node id2 ps => if id2 = id then some ps else none
    | _ => none)

theorem nodeIds_cons_node (id2 : GNodeId) (ps : GProps) (rest : List SyncOp) :
    nodeIds (SyncOp.node id2 ps :: rest) = id2 :: nodeIds rest := by
  simp [nodeIds, List.filterMap_cons]

theorem nodeIds_cons_constraint (c : String) (rest : List SyncOp) :
    nodeIds (SyncOp.constraint c :: rest) = nodeIds rest := by
  simp [nodeIds, List.filterMap_cons]

theorem nodeIds_cons_edge (s : GNodeId) (lbl : String) (t : GNodeId) (rest : List SyncOp) :
    nodeIds (SyncOp.edge s lbl t :: rest) = nodeIds rest := by
  simp [nodeIds, List.filterMap_cons]

theorem nodePayloads_cons_node_self (id : GNodeId) (ps : GProps) (rest : List SyncOp) :
    nodePayloads (SyncOp.node id ps :: rest) id = ps :: nodePayloads rest id := by
  simp [nodePayloads, List.filterMap_cons]

theorem nodePayloads_cons_node_ne {id2 id : GNodeId} (h : id2 ≠ id) (ps : GProps)
    (rest : List SyncOp) :
    nodePayloads (SyncOp.node id2 ps :: rest) id = nodePayloads rest id := by
  simp [nodePayloads, List.filterMap_cons, h]

theorem nodePayloads_cons_constraint (c : String) (rest : List SyncOp) (id : GNodeId) :
    nodePayloads (SyncOp.constraint c :: rest) id = nodePayloads rest id := by
  simp [nodePayloads, List.filterMap_cons]

theorem nodePayloads_cons_edge (s : GNodeId) (lbl : String) (t : GNodeId)
    (rest : List SyncOp) (id : GNodeId) :
    nodePayloads (SyncOp.edge s lbl t :: rest) id = nodePayloads rest id := by
  simp [nodePayloads, List.filterMap_cons]

theorem mem_nodeIds_of_mem {id : GNodeId} {ps : GProps} : ∀ {l : List SyncOp},
    SyncOp.node id ps ∈ l → id ∈ nodeIds l := by
  intro l
  induction l with
  | nil => intro h; simp at h
  | cons o rest ih =>
    intro h
    rcases List.mem_cons.mp h with heq | hm
    · rw [← heq, nodeIds_cons_node]
      exact List.mem_cons_self _ _
    · cases o with
      | node id2 ps2 =>
        rw [nodeIds_cons_node]
        exact List.mem_cons.mpr (Or.inr (ih hm))
      | constraint c =>
        rw [nodeIds_cons_constraint]
        exact ih hm
      | edge s lbl t =>
        rw [nodeIds_cons_edge]
        exact ih hm

theorem mem_constraintNames_of_mem {c : String} : ∀ {l : List SyncOp},
    SyncOp.constraint c ∈ l → c ∈ constraintNames l := by
  intro l
  induction l with
  | nil => intro h; simp at h
  | cons o rest ih =>
    intro h
    rcases List.mem_cons.mp h with heq | hm
    · rw [← heq]
      simp [constraintNames, List.filterMap_cons]
    · cases o with
      | node id2 ps2 =>
        simp only [constraintNames, List.filterMap_cons]
        exact ih hm
      | constraint c2 =>
        simp only [constraintNames, List.filterMap_cons]
        exact List.mem_cons.mpr (Or.inr (ih hm))
      | edge s lbl t =>
        simp only [constraintNames, List.filterMap_cons]
        exact ih hm

theorem nodePayloads_nil_of_not_mem {id : GNodeId} : ∀ {l : List SyncOp},
    id ∉ nodeIds l → nodePayloads l id = [] := by
  intro l
  induction l with
  | nil => intro _; rfl
  | cons o rest ih =>
    intro h
    cases o with
    | node id2 ps2 =>
      rw [nodeIds_cons_node] at h
      have h1 : id2 ≠ id := fun he => h (by rw [he]; exact List.mem_cons_self _ _)
      have h2 : id ∉ nodeIds rest := fun hm => h (List.mem_cons.mpr (Or.inr hm))
      rw [nodePayloads_cons_node_ne h1]
      exact ih h2
    | constraint c =>
      rw [nodeIds_cons_constraint] at h
      rw [nodePayloads_cons_constraint]
      exact ih h
    | edge s lbl t =>
      rw [nodeIds_cons_edge] at h
      rw [nodePayloads_cons_edge]
      exact ih h

theorem nodePayloads_single {id : GNodeId} {ps : GProps} : ∀ {l : List SyncOp},
    SyncOp.node id ps ∈ l → (nodeIds l).Nodup → nodePayloads l id = [ps] := by
  intro l
  induction l with
  | nil => intro hmem _; simp at hmem
  | cons o rest ih =>
    intro hmem hnodup
    cases o with
    | node id2 ps2 =>
      rw [nodeIds_cons_node] at hnodup
      obtain ⟨hnotin, hnd⟩ := List.nodup_cons.mp hnodup
      rcases List.mem_cons.mp hmem with heq | hm
      · injection heq with h1 h2
        subst h1
        subst h2
        rw [nodePayloads_cons_node_self, nodePayloads_nil_of_not_mem hnotin]
      · have hidin := mem_nodeIds_of_mem hm
        have hne : id2 ≠ id := fun he => hnotin (by rw [he]; exact hidin)
        rw [nodePayloads_cons_node_ne hne]
        exact ih hm hnd
    | constraint c =>
      rw [nodeIds_cons_constraint] at hnodup
      have hm : SyncOp.node id ps ∈ rest := by
        rcases List.mem_cons.mp hmem with heq | hm
        · exact absurd heq (by simp)
        · exact hm
      rw [nodePayloads_cons_constraint]
      exact ih hm hnodup
    | edge s lbl t =>
      rw [nodeIds_cons_edge] at hnodup
      have hm : SyncOp.node id ps ∈ rest := by
        rcases List.mem_cons.mp hmem with heq | hm
        · exact absurd heq (by simp)
        · exact hm
      rw [nodePayloads_cons_edge]
      exact ih hm hnodup

theorem mem_nodePayloads_of_mem {id : GNodeId} {ps : GProps} : ∀ {l : List SyncOp},
    SyncOp.node id ps ∈ l → ps ∈ nodePayloads l id := by
  intro l
  induction l with
  | nil => intro h; simp at h
  | cons o rest ih =>
    intro h
    rcases List.mem_cons.mp h with heq | hm
    · rw [← heq, nodePayloads_cons_node_self]
      exact List.mem_cons_self _ _
    · cases o with
      | node id2 ps2 =>
        by_cases hne : id2 = id
        · subst hne
          rw [nodePayloads_cons_node_self]
          exact List.mem_cons.mpr (Or.inr (ih hm))
        · rw [nodePayloads_cons_node_ne hne]
          exact ih hm
      | constraint c =>
        rw [nodePayloads_cons_constraint]
        exact ih hm
      | edge s lbl t =>
        rw [nodePayloads_cons_edge]
        exact ih hm

theorem firstProps_applyOps_ne {id : GNodeId} : ∀ {l : List SyncOp},
    (∀ ps, SyncOp.node id ps ∉ l) → ∀ (g : Graph),
    firstProps (applyOps g l) id = firstProps g id := by
  intro l
  induction l with
  | nil => intro _ g; rfl
  | cons o rest ih =>
    intro h g
    have hcons : applyOps g (o :: rest) = applyOps (applyOp g o) rest := rfl
    rw [hcons, ih (fun ps hps => h ps (List.mem_cons.mpr (Or.inr hps))),
      firstProps_applyOp_ne (fun ps heq => h ps (by rw [← heq]; exact List.mem_cons_self _ _))]

theorem firstProps_applyOps_single {id : GNodeId} {ps : GProps} : ∀ {l : List SyncOp},
    nodePayloads l id = [ps] → ∀ (g : Graph),
    ∃ X, firstProps (applyOps g l) id = some (propsAdd X ps) := by
  intro l
  induction l with
  | nil => intro h; simp [nodePayloads] at h
  | cons o rest ih =>
    intro h g
    have hcons : applyOps g (o :: rest) = applyOps (applyOp g o) rest := rfl
    rw [hcons]
    by_cases ho : ∃ ps0, o = SyncOp.node id ps0
    · obtain ⟨ps0, rfl⟩ := ho
      rw [nodePayloads_cons_node_self] at h
      have hsplit : ps0 = ps ∧ nodePayloads rest id = [] := by simpa using h
      obtain ⟨rfl, hrest⟩ := hsplit
      have hnomem : ∀ ps2, SyncOp.node id ps2 ∉ rest := by
        intro ps2 hmem
        have hin := mem_nodePayloads_of_mem hmem
        rw [hrest] at hin
        simp at hin
      obtain ⟨X, hX⟩ := firstProps_applyOp_self g id ps0
      exact ⟨X, by rw [firstProps_applyOps_ne hnomem, hX]⟩
    · have hrest : nodePayloads rest id = [ps] := by
        cases o with
        | node id2 ps2 =>
          have hne : id2 ≠ id := fun he => ho ⟨ps2, by rw [he]⟩
          rw [nodePayloads_cons_node_ne hne] at h
          exact h
        | constraint c =>
          rw [nodePayloads_cons_constraint] at h
          exact h
        | edge s lbl t =>
          rw [nodePayloads_cons_edge] at h
          exact h
      exact ih hrest (applyOp g o)

/-! ### Fixpoint of the projector from the second run on (C2) -/

theorem bool_eq_of_iff {a b : Bool} (h : a = true ↔ b = true) : a = b := by
  cases a <;> cases b <;> simp_all

theorem hasNodeId_congr {g2 h2 : Graph}
    (he : g2.nodes.map Prod.fst = h2.nodes.map Prod.fst) (id : GNodeId) :
    hasNodeId g2 id = hasNodeId h2 id :=
  bool_eq_of_iff (by rw [hasNodeId_iff, hasNodeId_iff, he])

theorem nodeIds_cons_subset (o : SyncOp) (rest : List SyncOp) :
    nodeIds rest ⊆ nodeIds (o :: rest) := by
  intro id hid
  cases o with
  | node id2 ps =>
    rw [nodeIds_cons_node]
    exact List.mem_cons.mpr (Or.inr hid)
  | constraint c =>
    rw [nodeIds_cons_constraint]
    exact hid
  | edge s lbl t =>
    rw [nodeIds_cons_edge]
    exact hid

/-- When every node id the statements target already exists, a run adds no
node: the node-id column is unchanged. -/
theorem nodesfst_applyOps_const : ∀ (l : List SyncOp) (g : Graph),
    (∀ id ∈ nodeIds l, hasNodeId g id = true) →
    (applyOps g l).nodes.map Prod.fst = g.nodes.map Prod.fst := by
  intro l
  induction l with
  | nil => intro g _; rfl
  | cons o rest ih =>
    intro g hpres
    have hcons : applyOps g (o :: rest) = applyOps (applyOp g o) rest := rfl
    rw [hcons]
    have hstep : (applyOp g o).nodes.map Prod.fst = g.nodes.map Prod.fst := by
      cases o with
      | constraint c => by_cases hc : c ∈ g.constraints <;> simp [applyOp, hc]
      | node id2 ps =>
        have hp : hasNodeId g id2 = true := by
          apply hpres
          rw [nodeIds_cons_node]
          exact List.mem_cons_self _ _
        simp [applyOp, hp, updateFirst_map_fst]
      | edge s lbl t =>
        by_cases hb : (hasNodeId g s && hasNodeId g t) = true
        · by_cases heg : (s, lbl, t) ∈ g.edges <;> simp [applyOp, hb, heg]
        · simp [applyOp, hb]
    have hpres2 : ∀ id ∈ nodeIds rest, hasNodeId (applyOp g o) id = true := by
      intro id hid
      rw [hasNodeId_congr hstep id]
      exact hpres id (nodeIds_cons_subset o rest hid)
    rw [ih (applyOp g o) hpres2, hstep]

theorem applyOps_fix : ∀ (l : List SyncOp) (g : Graph),
    (∀ o ∈ l, applyOp g o = g) → applyOps g l = g := by
  intro l
  induction l with
  | nil => intro g _; rfl
  | cons o rest ih =>
    intro g h
    have hcons : applyOps g (o :: rest) = applyOps (applyOp g o) rest := rfl
    rw [hcons, h o (List.mem_cons_self _ _)]
    exact ih g (fun o2 ho2 => h o2 (List.mem_cons.mpr (Or.inr ho2)))

/-- MERGE never duplicates an edge. -/
theorem edges_nodup_applyOp {g : Graph} (h : g.edges.Nodup) (o : SyncOp) :
    (applyOp g o).edges.Nodup := by
  cases o with
  | constraint c => by_cases hc : c ∈ g.constraints <;> simp [applyOp, hc, h]
  | node id ps => by_cases hp : hasNodeId g id = true <;> simp [applyOp, hp, h]
  | edge s lbl t =>
    by_cases hb : (hasNodeId g s && hasNodeId g t) = true
    · by_cases he : (s, lbl, t) ∈ g.edges
      · simp [applyOp, hb, he, h]
      · simp only [applyOp, hb, if_true, if_neg he]
        refine List.Nodup.append h (List.nodup_singleton _) ?_
        intro a ha hb2
        rw [List.mem_singleton] at hb2
        subst hb2
        exact he ha
    · simp [applyOp, hb, h]

theorem edges_nodup_applyOps {g : Graph} (h : g.edges.Nodup) (l : List SyncOp) :
    (applyOps g l).edges.Nodup := by
  induction l generalizing g with
  | nil => exact h
  | cons o rest ih => exact ih (edges_nodup_applyOp h o)

/-- Well-formedness of a statement list: each node is merged by at most one
statement, and no `SET +=` payload repeats a key (both hold for statements
projected from Mongo collections with unique `_id`s and dict payloads). -/
def OpsWF (l : List SyncOp) : Prop :=
  (nodeIds l).Nodup ∧ ∀ id ps, SyncOp.node id ps ∈ l → (ps.map Prod.fst).Nodup

/-- Once every targeted node id exists, one further run is idempotent:
constraints and edges are already present, and re-applying a node payload
is absorbed by the earlier `SET +=` of the same run. -/
theorem applyOps_idem_of_present {l : List SyncOp} (hwf : OpsWF l) {g : Graph}
    (hpres : ∀ id ∈ nodeIds l, hasNodeId g id = true) :
    applyOps (applyOps g l) l = applyOps g l := by
  obtain ⟨hnodup, hprops⟩ := hwf
  apply applyOps_fix
  intro o ho
  cases o with
  | constraint c =>
    have hc : c ∈ (applyOps g l).constraints :=
      constraints_establish (mem_constraintNames_of_mem ho) g
    simp [applyOp, hc]
  | node id ps =>
    have hpg : hasNodeId g id = true := hpres id (mem_nodeIds_of_mem ho)
    have hp2 : hasNodeId (applyOps g l) id = true := hasNodeId_applyOps hpg l
    obtain ⟨X, hX⟩ := firstProps_applyOps_single (nodePayloads_single ho hnodup) g
    have hfind : ∃ en, (applyOps g l).nodes.find? (fun e => e.1 == id) = some en
        ∧ en.2 = propsAdd X ps := by
      simp only [firstProps] at hX
      cases hEn : (applyOps g l).nodes.find? (fun e => e.1 == id) with
      | none => rw [hEn] at hX; simp at hX
      | some en =>
        rw [hEn] at hX
        exact ⟨en, rfl, by simpa using hX⟩
    obtain ⟨en, hen, hen2⟩ := hfind
    have hfix : propsAdd en.2 ps = en.2 := by
      rw [hen2]
      exact propsAdd_idem X (hprops id ps ho)
    simp only [applyOp, hp2, if_true]
    rw [updateFirst_id (applyOps g l).nodes en hen hfix]
  | edge s lbl t =>
    by_cases hb : (hasNodeId g s && hasNodeId g t) = true
    · rw [Bool.and_eq_true] at hb
      have hedge : (s, lbl, t) ∈ (applyOps g l).edges := edge_establish ho hb.1 hb.2
      have hb2 : (hasNodeId (applyOps g l) s && hasNodeId (applyOps g l) t) = true := by
        rw [Bool.and_eq_true]
        exact ⟨hasNodeId_applyOps hb.1 l, hasNodeId_applyOps hb.2 l⟩
      simp [applyOp, hb2, hedge]
    · have hconst := nodesfst_applyOps_const l g hpres
      have hb2 : (hasNodeId (applyOps g l) s && hasNodeId (applyOps g l) t) = false := by
        rw [hasNodeId_congr hconst s, hasNodeId_congr hconst t]
        exact Bool.eq_false_iff.mpr hb
      simp [applyOp, hb2]

/-! ### Well-formed document stores (C2) -/

theorem filterMap_const_none {α β : Type} (l : List α) :
    l.filterMap (fun _ => (none : Option β)) = [] := by
  induction l with
  | nil => rfl
  | cons a rest ih => simp [List.filterMap_cons, ih]

theorem nodeIds_append (l1 l2 : List SyncOp) :
    nodeIds (l1 ++ l2) = nodeIds l1 ++ nodeIds l2 := by
  simp [nodeIds, List.filterMap_append]

theorem nodeIds_map_edge {α : Type} (s t2 : α → GNodeId) (lbl : α → String) :
    ∀ (l : List α), nodeIds (l.map (fun x => SyncOp.edge (s x) (lbl x) (t2 x))) = [] := by
  intro l
  induction l with
  | nil => rfl
  | cons a rest ih =>
    rw [List.map_cons, nodeIds_cons_edge, ih]

theorem nodeIds_userOps (u : SyncUserDoc) :
    nodeIds (userOps u) = [(("User", "idUser", u.id) : GNodeId)] := by
  rw [userOps, nodeIds_append, nodeIds_append, nodeIds_append, nodeIds_map_edge,
    nodeIds_map_edge, nodeIds_map_edge]
  simp [nodeIds, List.filterMap_cons]

theorem nodeIds_roleOps (r : SyncRoleDoc) :
    nodeIds (roleOps r) = [(("Role", "name", r.name) : GNodeId)] := by
  rw [roleOps, nodeIds_append, nodeIds_map_edge]
  simp [nodeIds, List.filterMap_cons]

theorem nodeIds_interestOps (i : SyncInterestDoc) :
    nodeIds (interestOps i) = [(("Interest", "idInterest", i.id) : GNodeId)] := by
  simp [interestOps, nodeIds, List.filterMap_cons]

theorem nodeIds_keyOps (k : SyncKeyDoc) :
    nodeIds (keyOps k) = [(("Key", "idKey", k.id) : GNodeId)] := by
  simp [keyOps, nodeIds, List.filterMap_cons]

theorem nodeIds_threadOps (t : SyncThreadDoc) :
    nodeIds (threadOps t) = [(("Thread", "idThread", t.id) : GNodeId)] := by
  rw [threadOps, nodeIds_append, nodeIds_append, nodeIds_map_edge, nodeIds_map_edge]
  simp [nodeIds, List.filterMap_cons]

theorem nodeIds_postOps (p : SyncPostDoc) :
    nodeIds (postOps p) = [(("Post", "idPost", p.id) : GNodeId)] := by
  rw [postOps, nodeIds_append, nodeIds_append, nodeIds_append, nodeIds_map_edge,
    nodeIds_map_edge, nodeIds_map_edge]
  simp [nodeIds, List.filterMap_cons]

theorem nodeIds_userOps_flat (us : List SyncUserDoc) :
    nodeIds (us.flatMap userOps)
      = us.map (fun u => (("User", "idUser", u.id) : GNodeId)) := by
  induction us with
  | nil => rfl
  | cons u rest ih =>
    rw [List.flatMap_cons, nodeIds_append, ih, nodeIds_userOps]
    rfl

theorem nodeIds_roleOps_flat (rs : List SyncRoleDoc) :
    nodeIds (rs.flatMap roleOps)
      = rs.map (fun r => (("Role", "name", r.name) : GNodeId)) := by
  induction rs with
  | nil => rfl
  | cons r rest ih =>
    rw [List.flatMap_cons, nodeIds_append, ih, nodeIds_roleOps]
    rfl

theorem nodeIds_interestOps_flat (is2 : List SyncInterestDoc) :
    nodeIds (is2.flatMap interestOps)
      = is2.map (fun i => (("Interest", "idInterest", i.id) : GNodeId)) := by
  induction is2 with
  | nil => rfl
  | cons i rest ih =>
    rw [List.flatMap_cons, nodeIds_append, ih, nodeIds_interestOps]
    rfl

theorem nodeIds_keyOps_flat (ks : List SyncKeyDoc) :
    nodeIds (ks.flatMap keyOps)
      = ks.map (fun k => (("Key", "idKey", k.id) : GNodeId)) := by
  induction ks with
  | nil => rfl
  | cons k rest ih =>
    rw [List.flatMap_cons, nodeIds_append, ih, nodeIds_keyOps]
    rfl

theorem nodeIds_threadOps_flat (ts : List SyncThreadDoc) :
    nodeIds (ts.flatMap threadOps)
      = ts.map (fun t => (("Thread", "idThread", t.id) : GNodeId)) := by
  induction ts with
  | nil => rfl
  | cons t rest ih =>
    rw [List.flatMap_cons, nodeIds_append, ih, nodeIds_threadOps]
    rfl

theorem nodeIds_postOps_flat (ps2 : List SyncPostDoc) :
    nodeIds (ps2.flatMap postOps)
      = ps2.map (fun p => (("Post", "idPost", p.id) : GNodeId)) := by
  induction ps2 with
  | nil => rfl
  | cons p rest ih =>
    rw [List.flatMap_cons, nodeIds_append, ih, nodeIds_postOps]
    rfl

theorem nodeIds_constraintOps : nodeIds constraintOps = [] := rfl

theorem nodeIds_opsOfStore (d : MongoStore) :
    nodeIds (opsOfStore d)
      = d.roles.map (fun r => (("Role", "name", r.name) : GNodeId))
        ++ d.interests.map (fun i => (("Interest", "idInterest", i.id) : GNodeId))
        ++ d.keys.map (fun k => (("Key", "idKey", k.id) : GNodeId))
        ++ d.users.map (fun u => (("User", "idUser", u.id) : GNodeId))
        ++ d.threads.map (fun t => (("Thread", "idThread", t.id) : GNodeId))
        ++ d.posts.map (fun p => (("Post", "idPost", p.id) : GNodeId)) := by
  rw [opsOfStore, nodeIds_append, nodeIds_append, nodeIds_append, nodeIds_append,
    nodeIds_append, nodeIds_append, nodeIds_constraintOps, nodeIds_userOps_flat,
    nodeIds_roleOps_flat, nodeIds_interestOps_flat, nodeIds_keyOps_flat,
    nodeIds_threadOps_flat, nodeIds_postOps_flat]
  rfl

/-- A well-formed document store: unique ids per collection (Mongo `_id`s)
and no duplicate keys inside a props payload (Python dicts). -/
def WFStore (d : MongoStore) : Prop :=
  (d.users.map SyncUserDoc.id).Nodup ∧ (d.roles.map SyncRoleDoc.name).Nodup
  ∧ (d.threads.map SyncThreadDoc.id).Nodup ∧ (d.posts.map SyncPostDoc.id).Nodup
  ∧ (d.keys.map SyncKeyDoc.id).Nodup ∧ (d.interests.map SyncInterestDoc.id).Nodup
  ∧ (∀ u ∈ d.users, (u.props.map Prod.fst).Nodup)
  ∧ (∀ r ∈ d.roles, (r.props.map Prod.fst).Nodup)
  ∧ (∀ t ∈ d.threads, (t.props.map Prod.fst).Nodup)
  ∧ (∀ p ∈ d.posts, (p.props.map Prod.fst).Nodup)
  ∧ (∀ k ∈ d.keys, (k.props.map Prod.fst).Nodup)
  ∧ (∀ i ∈ d.interests, (i.props.map Prod.fst).Nodup)

instance (d : MongoStore) : Decidable (WFStore d) := by
  unfold WFStore
  infer_instance

theorem labeled_nodup {α : Type} (L K : String) (f : α → String) (l : List α)
    (h : (l.map f).Nodup) : (l.map (fun x => ((L, K, f x) : GNodeId))).Nodup := by
  have hmm : l.map (fun x => ((L, K, f x) : GNodeId))
      = (l.map f).map (fun s => ((L, K, s) : GNodeId)) := by
    rw [List.map_map]
    rfl
  rw [hmm]
  exact h.map (fun a b hab => congrArg (fun x : GNodeId => x.2.2) hab)

theorem labeled_disjoint {α β : Type} (L1 L2 K1 K2 : String) (f : α → String)
    (g : β → String) (l1 : List α) (l2 : List β) (h : L1 ≠ L2) :
    List.Disjoint (l1.map (fun x => ((L1, K1, f x) : GNodeId)))
      (l2.map (fun x => ((L2, K2, g x) : GNodeId))) := by
  intro a h1 h2
  obtain ⟨x, _, rfl⟩ := List.mem_map.mp h1
  obtain ⟨y, _, hy⟩ := List.mem_map.mp h2
  exact h ((congrArg Prod.fst hy).symm)

theorem opsWF_opsOfStore {d : MongoStore} (h : WFStore d) : OpsWF (opsOfStore d) := by
  obtain ⟨hu, hr, ht, hp, hk, hi, hup, hrp, htp, hpp, hkp, hip⟩ := h
  constructor
  · rw [nodeIds_opsOfStore]
    have n1 := labeled_nodup "Role" "name" SyncRoleDoc.name d.roles hr
    have n2 := labeled_nodup "Interest" "idInterest" SyncInterestDoc.id d.interests hi
    have n3 := labeled_nodup "Key" "idKey" SyncKeyDoc.id d.keys hk
    have n4 := labeled_nodup "User" "idUser" SyncUserDoc.id d.users hu
    have n5 := labeled_nodup "Thread" "idThread" SyncThreadDoc.id d.threads ht
    have n6 := labeled_nodup "Post" "idPost" SyncPostDoc.id d.posts hp
    have dRI := labeled_disjoint "Role" "Interest" "name" "idInterest"
      SyncRoleDoc.name SyncInterestDoc.id d.roles d.interests (by decide)
    have dRK := labeled_disjoint "Role" "Key" "name" "idKey"
      SyncRoleDoc.name SyncKeyDoc.id d.roles d.keys (by decide)
    have dIK := labeled_disjoint "Interest" "Key" "idInterest" "idKey"
      SyncInterestDoc.id SyncKeyDoc.id d.interests d.keys (by decide)
    have dRU := labeled_disjoint "Role" "User" "name" "idUser"
      SyncRoleDoc.name SyncUserDoc.id d.roles d.users (by decide)
    have dIU := labeled_disjoint "Interest" "User" "idInterest" "idUser"
      SyncInterestDoc.id SyncUserDoc.id d.interests d.users (by decide)
    have dKU := labeled_disjoint "Key" "User" "idKey" "idUser"
      SyncKeyDoc.id SyncUserDoc.id d.keys d.users (by decide)
    have dRT := labeled_disjoint "Role" "Thread" "name" "idThread"
      SyncRoleDoc.name SyncThreadDoc.id d.roles d.threads (by decide)
    have dIT := labeled_disjoint "Interest" "Thread" "idInterest" "idThread"
      SyncInterestDoc.id SyncThreadDoc.id d.interests d.threads (by decide)
    have dKT := labeled_disjoint "Key" "Thread" "idKey" "idThread"
      SyncKeyDoc.id SyncThreadDoc.id d.keys d.threads (by decide)
    have dUT := labeled_disjoint "User" "Thread" "idUser" "idThread"
      SyncUserDoc.id SyncThreadDoc.id d.users d.threads (by decide)
    have dRP := labeled_disjoint "Role" "Post" "name" "idPost"
      SyncRoleDoc.name SyncPostDoc.id d.roles d.posts (by decide)
    have dIP := labeled_disjoint "Interest" "Post" "idInterest" "idPost"
      SyncInterestDoc.id SyncPostDoc.id d.interests d.posts (by decide)
    have dKP := labeled_disjoint "Key" "Post" "idKey" "idPost"
      SyncKeyDoc.id SyncPostDoc.id d.keys d.posts (by decide)
    have dUP := labeled_disjoint "User" "Post" "idUser" "idPost"
      SyncUserDoc.id SyncPostDoc.id d.users d.posts (by decide)
    have dTP := labeled_disjoint "Thread" "Post" "idThread" "idPost"
      SyncThreadDoc.id SyncPostDoc.id d.threads d.posts (by decide)
    refine ((((n1.append n2 dRI).append n3
      (List.disjoint_append_left.mpr ⟨dRK, dIK⟩)).append n4
      (List.disjoint_append_left.mpr ⟨List.disjoint_append_left.mpr ⟨dRU, dIU⟩, dKU⟩)).append n5
      (List.disjoint_append_left.mpr ⟨List.disjoint_append_left.mpr
        ⟨List.disjoint_append_left.mpr ⟨dRT, dIT⟩, dKT⟩, dUT⟩)).append n6
      (List.disjoint_append_left.mpr ⟨List.disjoint_append_left.mpr
        ⟨List.disjoint_append_left.mpr ⟨List.disjoint_append_left.mpr
          ⟨dRP, dIP⟩, dKP⟩, dUP⟩, dTP⟩)
  · intro id ps hmem
    simp only [opsOfStore, List.mem_append] at hmem
    rcases hmem with ((((((hc | hrm) | him) | hkm) | hum) | htm) | hpm)
    · simp [constraintOps] at hc
    · obtain ⟨r, hr2, hor⟩ := List.mem_flatMap.mp hrm
      simp only [roleOps, List.mem_cons, List.mem_append, List.mem_map,
        List.not_mem_nil, or_false] at hor
      rcases hor with heq | ⟨e, _, heq⟩
      · injection heq with h1 h2
        rw [h2]
        exact hrp r hr2
      · exact absurd heq (by simp)
    · obtain ⟨i, hi2, hoi⟩ := List.mem_flatMap.mp him
      simp only [interestOps, List.mem_cons, List.not_mem_nil, or_false] at hoi
      injection hoi with h1 h2
      rw [h2]
      exact hip i hi2
    · obtain ⟨k, hk2, hok⟩ := List.mem_flatMap.mp hkm
      simp only [keyOps, List.mem_cons, List.not_mem_nil, or_false] at hok
      injection hok with h1 h2
      rw [h2]
      exact hkp k hk2
    · obtain ⟨u, hu2, hou⟩ := List.mem_flatMap.mp hum
      simp only [userOps, List.mem_cons, List.mem_append, List.mem_map,
        List.not_mem_nil, or_false] at hou
      rcases hou with (((heq | heq) | ⟨f, _, heq⟩) | ⟨b, _, heq⟩) | ⟨i2, _, heq⟩
      · injection heq with h1 h2
        rw [h2]
        exact hup u hu2
      · exact absurd heq (by simp)
      · exact absurd heq (by simp)
      · exact absurd heq (by simp)
      · exact absurd heq (by simp)
    · obtain ⟨t, ht2, hot⟩ := List.mem_flatMap.mp htm
      simp only [threadOps, List.mem_cons, List.mem_append, List.mem_map,
        List.not_mem_nil, or_false] at hot
      rcases hot with ((heq | heq) | ⟨m, _, heq⟩) | ⟨a, _, heq⟩
      · injection heq with h1 h2
        rw [h2]
        exact htp t ht2
      · exact absurd heq (by simp)
      · exact absurd heq (by simp)
      · exact absurd heq (by simp)
    · obtain ⟨p2, hp2, hop⟩ := List.mem_flatMap.mp hpm
      simp only [postOps, List.mem_cons, List.mem_append, List.mem_map,
        List.not_mem_nil, or_false] at hop
      rcases hop with ((((heq | heq | heq) | ⟨k, _, heq⟩) | ⟨l2, _, heq⟩) | ⟨c2, _, heq⟩)
      · injection heq with h1 h2
        rw [h2]
        exact hpp p2 hp2
      · exact absurd heq (by simp)
      · exact absurd heq (by simp)
      · exact absurd heq (by simp)
      · exact absurd heq (by simp)
      · exact absurd heq (by simp)

/-- C2 (amended): `synchronize` is not idempotent after one run — a second
run can add FOLLOWS/BLOCKS/EXTENDS edges whose target nodes were merged
only later in the first run — but for a well-formed store it is a fixpoint
from the second run on: a third run returns the second run's graph
unchanged, the second run merges no new node, and MERGE keeps the edge
list duplicate-free throughout. -/
theorem synchronize_runs (d : MongoStore) (g : Graph) (hwf : WFStore d) :
    synchronize d (synchronize d (synchronize d g)) = synchronize d (synchronize d g)
    ∧ (synchronize d (synchronize d g)).nodes.map Prod.fst
        = (synchronize d g).nodes.map Prod.fst
    ∧ (g.edges.Nodup → (synchronize d (synchronize d g)).edges.Nodup) := by
  have hops := opsWF_opsOfStore hwf
  have hpres : ∀ id ∈ nodeIds (opsOfStore d), hasNodeId (synchronize d g) id = true := by
    intro id hid
    rw [synchronize_eq_applyOps]
    exact nodeIds_establish hid g
  refine ⟨?_, ?_, ?_⟩
  · have hfix := applyOps_idem_of_present hops hpres
    calc synchronize d (synchronize d (synchronize d g))
        = applyOps (applyOps (synchronize d g) (opsOfStore d)) (opsOfStore d) := by
          rw [synchronize_eq_applyOps d (synchronize d (synchronize d g) : Graph),
            synchronize_eq_applyOps d (synchronize d g)]
      _ = applyOps (synchronize d g) (opsOfStore d) := hfix
      _ = synchronize d (synchronize d g) := (synchronize_eq_applyOps d (synchronize d g)).symm
  · rw [synchronize_eq_applyOps d (synchronize d g)]
    exact nodesfst_applyOps_const (opsOfStore d) (synchronize d g) hpres
  · intro hge
    rw [synchronize_eq_applyOps d (synchronize d g), synchronize_eq_applyOps d g]
    exact edges_nodup_applyOps (edges_nodup_applyOps hge _) _

/-- Witness for C2 at `twoUserStore` from the empty graph. -/
theorem synchronize_runs_witness :
    WFStore twoUserStore
    ∧ synchronize twoUserStore (synchronize twoUserStore
        (synchronize twoUserStore emptyGraphState))
      = synchronize twoUserStore (synchronize twoUserStore emptyGraphState)
    ∧ (synchronize twoUserStore (synchronize twoUserStore emptyGraphState)).nodes.map Prod.fst
      = (synchronize twoUserStore emptyGraphState).nodes.map Prod.fst
    ∧ (synchronize twoUserStore (synchronize twoUserStore emptyGraphState)).edges.Nodup := by
  have h := synchronize_runs twoUserStore emptyGraphState (by decide)
  exact ⟨by decide, h.1, h.2.1, h.2.2 (by decide)⟩
